import Mathlib

/-!
Verification development for the tfs client SDK: transaction construction
(libtfslite/src/client), the local staging store (tfslite-sdk/src/state_redb.rs),
and the upload driver (tfslite-sdk/src/client.rs), modelled shallowly from the
Rust sources.

External collaborators (the secp256k1 signer/verifier, the SHA-2 digests and
the protobuf wire encoding) are modelled as explicit executable parameters:
byte strings holding encoded messages are token lists, which keeps the
canonical encoding injective and decodable, and the hash/signature functions
are fields of a `Crypto` record that concrete witnesses instantiate.
-/

namespace TFS

/-- A token of the canonical (protobuf-style) byte encoding. -/
inductive Tok where
  | str (s : String)
  | num (n : Nat)
  | int (i : Int)
  | raw (bs : List Nat)
  | strs (l : List String)
deriving DecidableEq, Repr

/-- A byte string holding an encoded message (`Vec<u8>` on the Rust side). -/
abbrev Bytes := List Tok

/-- One hex digit (`hex::encode`, low nibble). -/
def hexDigit (n : Nat) : Char :=
  (String.toList ("0123456789abcdef")).getD n ('0')

/-- Models `hex::encode` on a raw byte vector. -/
def hexEncode (bs : List Nat) : String :=
  String.mk ((bs.map (fun b => [hexDigit ((b / 16) % 16), hexDigit (b % 16)])).flatten)

/-- The external cryptographic and hashing primitives consumed by the core
(spec section 4.1; the secp256k1/SHA-2 implementations are out of scope). -/
structure Crypto where
  /-- `hex::encode(Sha512::digest(bytes))`. -/
  sha512hex : Bytes → String
  /-- `Sha224::digest(data)` on raw bytes. -/
  sha224 : List Nat → List Nat
  /-- `PublicKey::verify(data, sig, pk)` with hex-encoded signature and key. -/
  verify : Bytes → String → String → Bool
  /-- whether `PublicKey::load_from_hex` succeeds on this string. -/
  parseKeyHex : String → Bool
  /-- whether `Signature::try_from` succeeds on this string. -/
  parseSigHex : String → Bool

/-- A `Signer` capability: `sign(bytes) -> hex signature` plus its public key
bytes (`public_key().as_slice()`). -/
structure SignerM where
  sign : Bytes → String
  pubBytes : List Nat

/-- `signer.public_key().as_hex()`. -/
def SignerM.pubHex (sg : SignerM) : String := hexEncode sg.pubBytes

/-- The signing contract of spec section 4.1: the signer's key and signatures
parse, and its signatures verify under its own public key. -/
def Crypto.SignerOk (c : Crypto) (sg : SignerM) : Prop :=
  c.parseKeyHex sg.pubHex = true ∧
  ∀ d : Bytes, c.parseSigHex (sg.sign d) = true ∧ c.verify d (sg.sign d) sg.pubHex = true

/-- Extract the payload of a successful `Result`, with a default for the
error case (models Rust `.unwrap()` at call sites where the proof or the
surrounding invariant rules the error out). -/
def exOk {ε α : Type} (e : Except ε α) (dflt : α) : α :=
  match e with
  | .ok a => a
  | .error _ => dflt

/-! ## Payloads (libtfslite/src/client/payload.rs) -/

/-- `types.rs` `FileMode`. -/
inductive FileMode where
  | Destroyable
  | Immutable
deriving DecidableEq, Repr

/-- `types.rs` `Permission`. -/
inductive Permission where
  | Unset
  | SetPermission
  | Batcher
  | Deposit
  | Timestamp
deriving DecidableEq, Repr

/-- `PayloadOperation` (same constructors as the protobuf `Payload_Operation`). -/
inductive PayloadOperation where
  | FileCreate
  | FileAppend
  | FileSeal
  | FileDestroy
  | AccountDeposit
  | AccountTransfer
  | PermissionSet
  | PermissionClear
  | TimestampSet
deriving DecidableEq, Repr

/-- `Payload_DataBlock`. -/
structure DataBlock where
  data : List Nat
  sha224 : List Nat
deriving DecidableEq, Repr

/-- The protobuf `Payload` message; unset fields are `none`. -/
structure Payload where
  operation : PayloadOperation
  uuid : Option (List Nat) := none
  mode : Option FileMode := none
  block : Option DataBlock := none
  filename : Option String := none
  address : Option (List Nat) := none
  amount : Option Nat := none
  permission : Option Permission := none
  permission_public_key : Option (List Nat) := none
  timestamp_create : Option Int := none
  timestamp_append : Option Int := none
  timestamp_seal : Option Int := none
deriving DecidableEq, Repr

/-- Numeric tag of an operation in the wire encoding. -/
def opTag : PayloadOperation → Nat
  | .FileCreate => 0
  | .FileAppend => 1
  | .FileSeal => 2
  | .FileDestroy => 3
  | .AccountDeposit => 4
  | .AccountTransfer => 5
  | .PermissionSet => 6
  | .PermissionClear => 7
  | .TimestampSet => 8

def opOfTag : Nat → Option PayloadOperation
  | 0 => some .FileCreate
  | 1 => some .FileAppend
  | 2 => some .FileSeal
  | 3 => some .FileDestroy
  | 4 => some .AccountDeposit
  | 5 => some .AccountTransfer
  | 6 => some .PermissionSet
  | 7 => some .PermissionClear
  | 8 => some .TimestampSet
  | _ => none

def modeTag : Option FileMode → Nat
  | none => 0
  | some .Destroyable => 1
  | some .Immutable => 2

def permTag : Option Permission → Nat
  | none => 0
  | some .Unset => 1
  | some .SetPermission => 2
  | some .Batcher => 3
  | some .Deposit => 4
  | some .Timestamp => 5

def presenceFlag {α : Type} (o : Option α) : Nat := if o.isSome then 1 else 0

/-- `payload.write_to_bytes()`: the canonical encoding of a `Payload`. -/
def encodePayload (p : Payload) : Bytes :=
  [ Tok.num (opTag p.operation),
    Tok.num (presenceFlag p.uuid), Tok.raw (p.uuid.getD []),
    Tok.num (modeTag p.mode),
    Tok.num (presenceFlag p.block), Tok.raw ((p.block.map DataBlock.data).getD []),
    Tok.raw ((p.block.map DataBlock.sha224).getD []),
    Tok.num (presenceFlag p.filename), Tok.str (p.filename.getD ("")),
    Tok.num (presenceFlag p.address), Tok.raw (p.address.getD []),
    Tok.num (presenceFlag p.amount), Tok.num (p.amount.getD 0),
    Tok.num (permTag p.permission),
    Tok.num (presenceFlag p.permission_public_key), Tok.raw (p.permission_public_key.getD []),
    Tok.num (presenceFlag p.timestamp_create), Tok.int (p.timestamp_create.getD 0),
    Tok.num (presenceFlag p.timestamp_append), Tok.int (p.timestamp_append.getD 0),
    Tok.num (presenceFlag p.timestamp_seal), Tok.int (p.timestamp_seal.getD 0) ]

/-- Operation tag of an encoded payload (enough of the decoder for the
claims, which distinguish transactions by operation). -/
def decodeOp (b : Bytes) : Option PayloadOperation :=
  match b with
  | Tok.num t :: _ => opOfTag t
  | _ => none

inductive PayloadBuildError where
  | SerializationError (msg : String)
  | MissingField (msg : String)
deriving DecidableEq, Repr

/-- `PayloadBuilder` (operation selected at construction, fields optional). -/
structure PayloadBuilder where
  operation : PayloadOperation
  uuid : Option (List Nat) := none
  mode : Option FileMode := none
  block : Option DataBlock := none
  filename : Option String := none
  address : Option (List Nat) := none
  amount : Option Nat := none
  permission : Option Permission := none
  permission_public_key : Option (List Nat) := none
  timestamp_create : Option Int := none
  timestamp_append : Option Int := none
  timestamp_seal : Option Int := none
deriving DecidableEq, Repr

def PayloadBuilder.new (op : PayloadOperation) : PayloadBuilder := { operation := op }

def PayloadBuilder.with_uuid (b : PayloadBuilder) (u : List Nat) : PayloadBuilder :=
  { b with uuid := some u }

def PayloadBuilder.with_mode (b : PayloadBuilder) (m : FileMode) : PayloadBuilder :=
  { b with mode := some m }

/-- `with_block` computes `block.sha224` from the supplied data itself
(callers never supply the digest); the ambient SHA-224 is passed in. -/
def PayloadBuilder.with_block (b : PayloadBuilder) (c : Crypto) (data : List Nat) : PayloadBuilder :=
  { b with block := some { data := data, sha224 := c.sha224 data } }

def PayloadBuilder.with_filename (b : PayloadBuilder) (f : String) : PayloadBuilder :=
  { b with filename := some f }

def PayloadBuilder.with_address (b : PayloadBuilder) (a : List Nat) : PayloadBuilder :=
  { b with address := some a }

def PayloadBuilder.with_amount (b : PayloadBuilder) (a : Nat) : PayloadBuilder :=
  { b with amount := some a }

def PayloadBuilder.with_permission (b : PayloadBuilder) (p : Permission) : PayloadBuilder :=
  { b with permission := some p }

def PayloadBuilder.with_permission_public_key (b : PayloadBuilder) (k : List Nat) : PayloadBuilder :=
  { b with permission_public_key := some k }

def PayloadBuilder.with_timestamp_create (b : PayloadBuilder) (t : Int) : PayloadBuilder :=
  { b with timestamp_create := some t }

def PayloadBuilder.with_timestamp_append (b : PayloadBuilder) (t : Int) : PayloadBuilder :=
  { b with timestamp_append := some t }

def PayloadBuilder.with_timestamp_seal (b : PayloadBuilder) (t : Int) : PayloadBuilder :=
  { b with timestamp_seal := some t }

/-- Required-field extraction: `self.field.ok_or_else(MissingField)`. -/
def reqField {α : Type} (o : Option α) (msg : String) : Except PayloadBuildError α :=
  match o with
  | some v => Except.ok v
  | none => Except.error (PayloadBuildError.MissingField msg)

/-- `PayloadBuilder::build`: per-operation required-field validation, then the
typed payload record with exactly the fields the Rust code sets. -/
def PayloadBuilder.build (b : PayloadBuilder) : Except PayloadBuildError Payload :=
  match b.operation with
  | .FileCreate => do
      let uuid ← reqField b.uuid ("Field uuid is required")
      let mode ← reqField b.mode ("Field mode is required")
      Except.ok { operation := b.operation, uuid := some uuid, mode := some mode,
                  filename := b.filename }
  | .FileAppend => do
      let uuid ← reqField b.uuid ("Field uuid is required")
      let block ← reqField b.block ("Field block is required")
      Except.ok { operation := b.operation, uuid := some uuid, block := some block }
  | .FileSeal => do
      let uuid ← reqField b.uuid ("Field uuid is required")
      Except.ok { operation := b.operation, uuid := some uuid }
  | .FileDestroy => do
      let uuid ← reqField b.uuid ("Field uuid is required")
      Except.ok { operation := b.operation, uuid := some uuid }
  | .AccountDeposit => do
      let address ← reqField b.address ("Field address is required")
      let amount ← reqField b.amount ("Field amount is required")
      Except.ok { operation := b.operation, address := some address, amount := some amount }
  | .AccountTransfer => do
      let address ← reqField b.address ("Field address is required")
      let amount ← reqField b.amount ("Field amount is required")
      Except.ok { operation := b.operation, address := some address, amount := some amount }
  | .PermissionSet => do
      let permission ← reqField b.permission ("Field permission is required")
      let ppk ← reqField b.permission_public_key ("Field permission_public_key is required")
      Except.ok { operation := b.operation, permission := some permission,
                  permission_public_key := some ppk }
  | .PermissionClear => do
      let permission ← reqField b.permission ("Field permission is required")
      Except.ok { operation := b.operation, permission := some permission }
  | .TimestampSet => do
      let uuid ← reqField b.uuid ("Field uuid is required")
      if b.timestamp_create.isNone ∧ b.timestamp_append.isNone ∧ b.timestamp_seal.isNone then
        Except.error (PayloadBuildError.MissingField
          ("At least one of the the fields timestamp_create, timestamp_append or timestamp_seal must be set"))
      else
        Except.ok { operation := b.operation, uuid := some uuid,
                    timestamp_create := b.timestamp_create,
                    timestamp_append := b.timestamp_append,
                    timestamp_seal := b.timestamp_seal }

/-! ## Transactions (libtfslite/src/client/transaction.rs) -/

/-- Constants from `common.rs`. -/
def FAMILY_NAME : String := "tfslite"

def FAMILY_VERSION : String := "0.1"

def FILE_CREATE_COST : Nat := 100000000

/-- `get_tfslite_prefix()`: first 6 hex chars of SHA-512 of the family name
(renamed to `addr` here; it is the namespace tag used as input and output
address of every transaction). -/
def get_tfslite_addr (c : Crypto) : String :=
  (c.sha512hex [Tok.str ("tfslite")]).take 6

/-- The protobuf `TransactionHeader` message. -/
structure TransactionHeader where
  signer_public_key : String
  batcher_public_key : String
  dependencies : List String
  family_name : String
  family_version : String
  inputs : List String
  outputs : List String
  nonce : String
  payload_sha512 : String
deriving DecidableEq, Repr

/-- `tx_header.write_to_bytes()`: canonical encoding of the header. -/
def encodeHeader (h : TransactionHeader) : Bytes :=
  [ Tok.str h.signer_public_key, Tok.str h.batcher_public_key,
    Tok.strs h.dependencies, Tok.str h.family_name, Tok.str h.family_version,
    Tok.strs h.inputs, Tok.strs h.outputs, Tok.str h.nonce,
    Tok.str h.payload_sha512 ]

/-- `TransactionHeader::parse_from_bytes`. -/
def decodeHeader : Bytes → Option TransactionHeader
  | [ Tok.str spk, Tok.str bpk, Tok.strs deps, Tok.str fn, Tok.str fv,
      Tok.strs ins, Tok.strs outs, Tok.str nn, Tok.str ph ] =>
      some { signer_public_key := spk, batcher_public_key := bpk,
             dependencies := deps, family_name := fn, family_version := fv,
             inputs := ins, outputs := outs, nonce := nn, payload_sha512 := ph }
  | _ => none

/-- The protobuf `Transaction` message; the transaction id is
`header_signature`. -/
structure Transaction where
  header : Bytes
  header_signature : String
  payload : Bytes
deriving DecidableEq, Repr

inductive TransactionBuildError where
  | SerializationError (msg : String)
  | MissingField (msg : String)
  | SigningError (msg : String)
deriving DecidableEq, Repr

/-- `TransactionBuilder` with the defaults of its `Default` impl:
family name/version preset, everything else unset. -/
structure TransactionBuilder where
  batcher_public_key : Option (List Nat) := none
  dependencies : Option (List String) := none
  family_name : Option String := some FAMILY_NAME
  family_version : Option String := some FAMILY_VERSION
  nonce : Option (List Nat) := none
  payload : Option Payload := none
deriving DecidableEq, Repr

def TransactionBuilder.new : TransactionBuilder := {}

def TransactionBuilder.with_batcher_public_key (b : TransactionBuilder) (k : List Nat) :
    TransactionBuilder := { b with batcher_public_key := some k }

def TransactionBuilder.with_dependencies (b : TransactionBuilder) (d : List String) :
    TransactionBuilder := { b with dependencies := some d }

def TransactionBuilder.with_family_name (b : TransactionBuilder) (n : String) :
    TransactionBuilder := { b with family_name := some n }

def TransactionBuilder.with_family_version (b : TransactionBuilder) (v : String) :
    TransactionBuilder := { b with family_version := some v }

def TransactionBuilder.with_nonce (b : TransactionBuilder) (n : List Nat) :
    TransactionBuilder := { b with nonce := some n }

def TransactionBuilder.with_payload (b : TransactionBuilder) (p : Payload) :
    TransactionBuilder := { b with payload := some p }

/-- `TransactionBuilder::build(signer)`. `rand_nonce` stands for the 32
random bytes drawn when no nonce was supplied. `PublicKey::load_from_bytes`
never fails, so the batcher key is the hex of the supplied bytes, defaulting
to the signer's own key. -/
def TransactionBuilder.build (b : TransactionBuilder) (c : Crypto) (sg : SignerM)
    (rand_nonce : List Nat) : Except TransactionBuildError Transaction :=
  let signer_public_key := sg.pubHex
  let batcher_public_key :=
    match b.batcher_public_key with
    | some key_bytes => hexEncode key_bytes
    | none => signer_public_key
  let dependencies := b.dependencies.getD []
  match b.family_name, b.family_version, b.payload with
  | none, _, _ => Except.error (TransactionBuildError.MissingField ("Field family_name is required"))
  | some _, none, _ => Except.error (TransactionBuildError.MissingField ("Field family_version is required"))
  | some _, some _, none => Except.error (TransactionBuildError.MissingField ("Field payload is required"))
  | some family_name, some family_version, some payload =>
    let inputs := [get_tfslite_addr c]
    let outputs := [get_tfslite_addr c]
    let nonce := hexEncode (b.nonce.getD rand_nonce)
    let payload_bytes := encodePayload payload
    let payload_sha512 := c.sha512hex payload_bytes
    let hdr : TransactionHeader :=
      { signer_public_key := signer_public_key,
        batcher_public_key := batcher_public_key,
        dependencies := dependencies,
        family_name := family_name,
        family_version := family_version,
        inputs := inputs,
        outputs := outputs,
        nonce := nonce,
        payload_sha512 := payload_sha512 }
    let tx_header_bytes := encodeHeader hdr
    let signature := sg.sign tx_header_bytes
    Except.ok { header := tx_header_bytes, header_signature := signature,
                payload := payload_bytes }

/-- `TransactionValidationError` carrying the first-failed cause. -/
structure TransactionValidationError where
  msg : String
deriving DecidableEq, Repr

/-- `TransactionExt::validate`: parse the header, load the signer key, parse
the signature, verify it over the header bytes, and compare the recomputed
payload hash with the header field. -/
def Transaction.validate (t : Transaction) (c : Crypto) :
    Except TransactionValidationError Unit :=
  match decodeHeader t.header with
  | none => Except.error { msg := "Transaction header could not be parsed" }
  | some header =>
    if c.parseKeyHex header.signer_public_key = false then
      Except.error { msg := "Transaction signer public key could not be loaded" }
    else if c.parseSigHex t.header_signature = false then
      Except.error { msg := "Error loading Transaction signature" }
    else if c.verify t.header t.header_signature header.signer_public_key = false then
      Except.error { msg := "Transaction signature is invalid" }
    else if c.sha512hex t.payload ≠ header.payload_sha512 then
      Except.error { msg := "Transaction payload hash does not match header" }
    else
      Except.ok ()

/-! ## Local state store (tfslite-sdk/src/state.rs, state_redb.rs) -/

/-- `state.rs` `TransactionStatus`. -/
inductive TransactionStatus where
  | Local
  | Queued
  | Pending
  | Committed
  | Unknown
  | InvalidStatus
deriving DecidableEq, Repr

/-- `impl From<TransactionStatus> for String`. -/
def TransactionStatus.toStr : TransactionStatus → String
  | .Local => "LOCAL"
  | .Queued => "QUEUED"
  | .Pending => "PENDING"
  | .Committed => "COMMITTED"
  | .Unknown => "UNKNOWN"
  | .InvalidStatus => "INVALID_STATUS"

/-- `impl From<String> for TransactionStatus`: any unrecognized string
decodes to `InvalidStatus`. -/
def TransactionStatus.ofStr (s : String) : TransactionStatus :=
  match s with
  | "LOCAL" => .Local
  | "QUEUED" => .Queued
  | "PENDING" => .Pending
  | "COMMITTED" => .Committed
  | "UNKNOWN" => .Unknown
  | "INVALID_STATUS" => .InvalidStatus
  | _ => .InvalidStatus

/-- A `tx_info` table value: `(order, submit_id, status)`; the empty string
encodes an absent submit id. -/
structure TxInfoVal where
  order : Nat
  submit_id : String
  status : String
deriving DecidableEq, Repr

/-- `state.rs` `TransactionInfo` as returned by `get_txs`. -/
structure TransactionInfo where
  order : Nat
  tx_id : String
  submit_id : Option String
  status : TransactionStatus
deriving DecidableEq, Repr

/-- `state.rs` `LocalStateStoreError`, plus `Panic` for the places where the
Rust backend `unwrap`s a value its invariant guarantees. -/
inductive LocalStateStoreError where
  | NoSuchFile
  | NoSuchTransaction
  | ImplementationError (msg : String)
  | Panic
deriving DecidableEq, Repr

/-- Lookup in the `files` table (a `u128 -> u64` BTree map modelled as an
association list with unique keys). -/
def lookupA (l : List (Nat × Nat)) (k : Nat) : Option Nat :=
  (l.find? (fun p => p.1 == k)).map Prod.snd

/-- Insert-or-replace in the `files` table. -/
def insertA (l : List (Nat × Nat)) (k v : Nat) : List (Nat × Nat) :=
  (l.filter (fun p => !(p.1 == k))) ++ [(k, v)]

/-- Remove from the `files` table. -/
def removeA (l : List (Nat × Nat)) (k : Nat) : List (Nat × Nat) :=
  l.filter (fun p => !(p.1 == k))

/-- The native backend state: the four redb tables. `file_txs` is a multimap
(set semantics per key; `get_txs` sorts by order, so enumeration order is
immaterial); `tx_bytes` keeps the transaction whose encoding it stores. -/
structure RedbState where
  files : List (Nat × Nat)
  fileTxs : Nat → List String
  txInfo : String → Option TxInfoVal
  txBytes : String → Option Transaction

def emptyState : RedbState :=
  { files := [], fileTxs := fun _ => [], txInfo := fun _ => none, txBytes := fun _ => none }

/-- `RedbLocalStateStore::add_tx`: read `next_order` (0 when the file row is
absent), then in one write transaction bump the counter, insert the tx id in
the per-file multimap, write the `tx_info` row with status `LOCAL` and empty
submit id, and store the bytes. -/
def RedbState.add_tx (s : RedbState) (file_id : Nat) (t : Transaction) : RedbState :=
  let next_order := (lookupA s.files file_id).getD 0
  { files := insertA s.files file_id (next_order + 1),
    fileTxs := fun f =>
      if f = file_id then
        if t.header_signature ∈ s.fileTxs file_id then s.fileTxs file_id
        else s.fileTxs file_id ++ [t.header_signature]
      else s.fileTxs f,
    txInfo := fun id =>
      if id = t.header_signature then
        some { order := next_order, submit_id := "", status := TransactionStatus.Local.toStr }
      else s.txInfo id,
    txBytes := fun id =>
      if id = t.header_signature then some t else s.txBytes id }

/-- The body of `get_txs`'s loop: look each file tx id up in `tx_info`
(`unwrap` panics when absent) and build a `TransactionInfo` row. -/
def collectRows (s : RedbState) : List String → Except LocalStateStoreError (List TransactionInfo)
  | [] => Except.ok []
  | id :: rest =>
    match s.txInfo id with
    | none => Except.error LocalStateStoreError.Panic
    | some v =>
      match collectRows s rest with
      | Except.error e => Except.error e
      | Except.ok rs =>
        Except.ok ({ order := v.order, tx_id := id,
                     submit_id := if v.submit_id = "" then none else some v.submit_id,
                     status := TransactionStatus.ofStr v.status } :: rs)

/-- `RedbLocalStateStore::get_txs`: `NoSuchFile` when the file row is absent,
otherwise the rows sorted ascending by `order` (a stable sort, as in Rust). -/
def RedbState.get_txs (s : RedbState) (file_id : Nat) :
    Except LocalStateStoreError (List TransactionInfo) :=
  match lookupA s.files file_id with
  | none => Except.error LocalStateStoreError.NoSuchFile
  | some _ =>
    match collectRows s (s.fileTxs file_id) with
    | Except.error e => Except.error e
    | Except.ok rows =>
      Except.ok (List.insertionSort (fun a b => a.order ≤ b.order) rows)

/-- `RedbLocalStateStore::get_files`. -/
def RedbState.get_files (s : RedbState) : List Nat := s.files.map Prod.fst

/-- `RedbLocalStateStore::get_tx_bytes`. -/
def RedbState.get_tx_bytes (s : RedbState) (tx_id : String) :
    Except LocalStateStoreError Transaction :=
  match s.txBytes tx_id with
  | none => Except.error LocalStateStoreError.NoSuchTransaction
  | some t => Except.ok t

/-- `RedbLocalStateStore::update_tx`: `NoSuchTransaction` when the row is
absent, otherwise overwrite whichever of `submit_id`/`status` is supplied,
leaving `order` and every other row untouched. -/
def RedbState.update_tx (s : RedbState) (tx_id : String) (submit_id : Option String)
    (status : Option TransactionStatus) : Except LocalStateStoreError RedbState :=
  match s.txInfo tx_id with
  | none => Except.error LocalStateStoreError.NoSuchTransaction
  | some v =>
    let submit_id_db := submit_id.getD v.submit_id
    let status_db := (status.map TransactionStatus.toStr).getD v.status
    Except.ok
      { s with
        txInfo := fun id =>
          if id = tx_id then
            some { order := v.order, submit_id := submit_id_db, status := status_db }
          else s.txInfo id }

/-- `RedbLocalStateStore::flush_txs`: one write transaction removing the
`tx_info` and `tx_bytes` rows of every tx of the file, the file row, and the
whole per-file multimap. -/
def RedbState.flush_txs (s : RedbState) (file_id : Nat) : RedbState :=
  { files := removeA s.files file_id,
    fileTxs := fun f => if f = file_id then [] else s.fileTxs f,
    txInfo := fun id => if id ∈ s.fileTxs file_id then none else s.txInfo id,
    txBytes := fun id => if id ∈ s.fileTxs file_id then none else s.txBytes id }

/-! ## Upload driver (tfslite-sdk/src/client.rs) -/

def DEFAULT_CHUNK_SIZE : Nat := 131072

/-- The chunk stream of `prepare_transactions`: reads of exactly
`chunk_size` bytes, the last chunk possibly shorter but non-empty; an empty
file yields no chunks. (At `chunk_size = 0` the Rust loop reads nothing and
the later division panics; theorems assume a positive chunk size.) -/
def chunkifyGo (csize : Nat) : Nat → List Nat → List (List Nat)
  | _, [] => []
  | 0, _ :: _ => []
  | fuel + 1, x :: rest =>
    if csize = 0 then []
    else (x :: rest).take csize :: chunkifyGo csize fuel ((x :: rest).drop csize)

def chunkify (csize : Nat) (d : List Nat) : List (List Nat) :=
  chunkifyGo csize d.length d

/-- `total_txs` as computed by `prepare_transactions`:
`file_size / chunk_size`, plus one if there is a remainder, plus 3. -/
def totalTxs (file_size csize : Nat) : Nat :=
  (file_size / csize + (if file_size % csize > 0 then 1 else 0)) + 3

/-- A default transaction for `exOk` at `.unwrap()` sites. -/
def txDefault : Transaction := { header := [], header_signature := "", payload := [] }

/-- One driver-side transaction build: payload, batcher key, optionally the
dependency list (the deposit transaction never calls `with_dependencies`),
then `build(signer).unwrap()`. -/
def buildDriverTx (c : Crypto) (sg : SignerM) (batcher : List Nat)
    (deps : Option (List String)) (p : Payload) (nonce : List Nat) : Transaction :=
  let b0 := (TransactionBuilder.new.with_payload p).with_batcher_public_key batcher
  let b1 := match deps with
            | none => b0
            | some d => b0.with_dependencies d
  exOk (b1.build c sg nonce) txDefault

/-- A default payload for `exOk` at `.unwrap()` sites. -/
def payloadDefault : Payload := { operation := PayloadOperation.FileSeal }

/-- The `ACCOUNT_DEPOSIT` payload: the signer's public key bytes as address,
amount `FILE_CREATE_COST * 10`. -/
def depositPayload (sg : SignerM) : Payload :=
  exOk (((PayloadBuilder.new PayloadOperation.AccountDeposit).with_address
      sg.pubBytes).with_amount (FILE_CREATE_COST * 10)).build payloadDefault

/-- The `FILE_CREATE` payload: file uuid, mode `Immutable`, the resolved
filename. -/
def createPayload (uuid_bytes : List Nat) (filename : String) : Payload :=
  exOk ((((PayloadBuilder.new PayloadOperation.FileCreate).with_uuid
      uuid_bytes).with_mode FileMode.Immutable).with_filename filename).build payloadDefault

/-- The `FILE_APPEND` payload for one chunk. -/
def appendPayload (c : Crypto) (uuid_bytes : List Nat) (data : List Nat) : Payload :=
  exOk (((PayloadBuilder.new PayloadOperation.FileAppend).with_uuid
      uuid_bytes).with_block c data).build payloadDefault

/-- The `FILE_SEAL` payload. -/
def sealPayload (uuid_bytes : List Nat) : Payload :=
  exOk ((PayloadBuilder.new PayloadOperation.FileSeal).with_uuid uuid_bytes).build payloadDefault

/-- The append/seal tail of `prepare_transactions`: one `FILE_APPEND` per
chunk then the `FILE_SEAL`, each chained on the previous transaction id,
`add_tx`ed, and reported as `(processed+1, total)`. Returns the final store,
the built transactions in `add_tx` order, and the progress reports.
`nonces i` stands for the random nonce drawn for the `i`-th transaction. -/
def prepareGo (c : Crypto) (sg : SignerM) (batcher : List Nat) (fid : Nat)
    (uuid_bytes : List Nat) (nonces : Nat → List Nat) (total : Nat) :
    RedbState → String → Nat → Nat → List (List Nat) →
    RedbState × List Transaction × List (Nat × Nat)
  | s, prev, i, processed, [] =>
    let t := buildDriverTx c sg batcher (some [prev]) (sealPayload uuid_bytes) (nonces i)
    (s.add_tx fid t, [t], [(processed + 1, total)])
  | s, prev, i, processed, d :: rest =>
    let t := buildDriverTx c sg batcher (some [prev]) (appendPayload c uuid_bytes d) (nonces i)
    let out := prepareGo c sg batcher fid uuid_bytes nonces total
      (s.add_tx fid t) t.header_signature (i + 1) (processed + 1) rest
    (out.1, t :: out.2.1, (processed + 1, total) :: out.2.2)

/-- `FileUpload::prepare_transactions` on a file with contents `data`:
computes `total_txs`, emits `ACCOUNT_DEPOSIT` (no dependency) and
`FILE_CREATE`, reports `(2, total)`, then the chunk/seal tail. `fid` is the
store key (`uuid.as_u128()`) and `uuid_bytes` the same uuid's byte view. -/
def prepare_transactions (c : Crypto) (sg : SignerM) (batcher : List Nat) (fid : Nat)
    (uuid_bytes : List Nat) (filename : String) (nonces : Nat → List Nat)
    (s0 : RedbState) (data : List Nat) (csize : Nat) :
    RedbState × List Transaction × List (Nat × Nat) :=
  let total_txs := totalTxs data.length csize
  let t0 := buildDriverTx c sg batcher none (depositPayload sg) (nonces 0)
  let s1 := s0.add_tx fid t0
  let t1 := buildDriverTx c sg batcher (some [t0.header_signature])
    (createPayload uuid_bytes filename) (nonces 1)
  let s2 := s1.add_tx fid t1
  let out := prepareGo c sg batcher fid uuid_bytes nonces total_txs
    s2 t1.header_signature 2 2 (chunkify csize data)
  (out.1, t0 :: t1 :: out.2.1, (2, total_txs) :: out.2.2)

/-- Dependencies of a built transaction, read back from its header bytes. -/
def depsOf (t : Transaction) : List String :=
  ((decodeHeader t.header).map TransactionHeader.dependencies).getD []

/-- The status normalization of `update_tx_statuses`: only `Unknown` is
mapped to `Local`. -/
def normalize (st : TransactionStatus) : TransactionStatus :=
  if st = TransactionStatus.Unknown then TransactionStatus.Local else st

/-- Lookup in a `HashMap` built by collecting a list of pairs: the last
binding of a key wins. -/
def mapLookup (m : List (String × String)) (k : String) : Option String :=
  (m.reverse.find? (fun p => p.1 == k)).map Prod.snd

/-- The loop of `update_tx_statuses` over the poll response: map each
submit id back to its tx id (`unwrap` panics on an unknown submit id),
normalize the decoded status, and `update_tx` ignoring its result. -/
def pollFold (tx_map : List (String × String)) :
    RedbState → List (String × String) → Except LocalStateStoreError RedbState
  | st, [] => Except.ok st
  | st, e :: rest =>
    match mapLookup tx_map e.1 with
    | none => Except.error LocalStateStoreError.Panic
    | some tx_id =>
      let status := normalize (TransactionStatus.ofStr e.2)
      let st2 := match st.update_tx tx_id (some e.1) (some status) with
                 | Except.ok s2 => s2
                 | Except.error _ => st
      pollFold tx_map st2 rest

/-- `FileUpload::update_tx_statuses` given the poll response `poll`
(the decoded body of `POST /transaction/status/multiple`): reload the rows,
build the submit-id-to-tx-id map (`unwrap` panics when a row has no submit
id), then fold the response through `update_tx`. -/
def update_tx_statuses (s : RedbState) (file_id : Nat) (poll : List (String × String)) :
    Except LocalStateStoreError RedbState :=
  match s.get_txs file_id with
  | Except.error e => Except.error e
  | Except.ok rows =>
    if rows.any (fun r => r.submit_id.isNone) then Except.error LocalStateStoreError.Panic
    else
      pollFold (rows.map (fun r => (r.submit_id.getD "", r.tx_id))) s poll

/-- The per-row tail of one `wait_transactions` iteration: count uncommitted
rows, and resubmit every row whose status is `Local` — fetch its bytes
(`unwrap`), POST them (the remote answers `σ tx_id`), and store the new
submit id. Returns the final state, the tx ids that were resubmitted
(i.e. whose bytes were POSTed), and the uncommitted count. -/
def wait_pass (σ : String → String) :
    RedbState → List TransactionInfo →
    Except LocalStateStoreError (RedbState × List String × Nat)
  | s, [] => Except.ok (s, [], 0)
  | s, r :: rest =>
    let unc := if r.status = TransactionStatus.Committed then 0 else 1
    if r.status = TransactionStatus.Local then
      match s.txBytes r.tx_id with
      | none => Except.error LocalStateStoreError.Panic
      | some _ =>
        match s.update_tx r.tx_id (some (σ r.tx_id)) none with
        | Except.error _ => Except.error LocalStateStoreError.Panic
        | Except.ok s2 =>
          match wait_pass σ s2 rest with
          | Except.error e => Except.error e
          | Except.ok (s3, resubs, u) => Except.ok (s3, r.tx_id :: resubs, unc + u)
    else
      match wait_pass σ s rest with
      | Except.error e => Except.error e
      | Except.ok (s3, resubs, u) => Except.ok (s3, resubs, unc + u)

/-- One iteration of the `wait_transactions` loop: bulk status update from
the poll response, reload the rows, then the count/resubmit pass. -/
def wait_iteration (σ : String → String) (s : RedbState) (file_id : Nat)
    (poll : List (String × String)) :
    Except LocalStateStoreError (RedbState × List String × Nat) :=
  match update_tx_statuses s file_id poll with
  | Except.error e => Except.error e
  | Except.ok s1 =>
    match s1.get_txs file_id with
    | Except.error e => Except.error e
    | Except.ok rows => wait_pass σ s1 rows

/-- `N` successive `add_tx` calls for one file id, starting from the empty
store. -/
def addsState (fid : Nat) (txs : List Transaction) : RedbState :=
  txs.foldl (fun s t => s.add_tx fid t) emptyState

/-- The expected `get_txs` rows after adding `txs` in order: orders counted
from `k`, no submit id, status `Local`. -/
def mkRows (k : Nat) : List Transaction → List TransactionInfo
  | [] => []
  | t :: rest =>
    { order := k, tx_id := t.header_signature, submit_id := none,
      status := TransactionStatus.Local } :: mkRows (k + 1) rest

/-- Dependency chaining from a given predecessor id: each transaction
depends exactly on the previous one's header signature. -/
def Chained : String → List Transaction → Prop
  | _, [] => True
  | p, t :: rest => depsOf t = [p] ∧ Chained t.header_signature rest

/-- A fully chained sequence: the head has no dependencies and the rest is
chained behind it. -/
def ChainedList : List Transaction → Prop
  | [] => True
  | t :: rest => depsOf t = [] ∧ Chained t.header_signature rest

/-- The row a `get_txs` loop iteration builds from a `tx_info` value. -/
def rowOfVal (id : String) (v : TxInfoVal) : TransactionInfo :=
  { order := v.order, tx_id := id,
    submit_id := if v.submit_id = "" then none else some v.submit_id,
    status := TransactionStatus.ofStr v.status }

/-! ## Concrete instances used by witnesses and counterexamples -/

/-- A concrete crypto instance: hashing is list length (any executable
function does — the claims never depend on hash internals), signatures are
the fixed string that `verify` accepts, all hex strings parse. -/
def cryptoW : Crypto :=
  { sha512hex := fun b => String.mk (List.replicate b.length ('h')),
    sha224 := fun bs => [bs.length],
    verify := fun _ sig _ => sig == "sig",
    parseKeyHex := fun _ => true,
    parseSigHex := fun _ => true }

/-- A concrete signer accepted by `cryptoW`. -/
def signerW : SignerM := { sign := fun _ => "sig", pubBytes := [2, 171] }

/-- A concrete payload for the C1 witness (a `FILE_SEAL`). -/
def payloadW : Payload :=
  exOk ((PayloadBuilder.new PayloadOperation.FileSeal).with_uuid [1]).build payloadDefault

def builderW : TransactionBuilder := TransactionBuilder.new.with_payload payloadW

/-- The transaction the C1 witness builds and validates. -/
def txW : Transaction := exOk (builderW.build cryptoW signerW []) txDefault

/-- Bare transactions for store-level witnesses (the store never inspects
anything but `header_signature`). -/
def txA : Transaction := { header := [], header_signature := "a", payload := [] }

def txB : Transaction := { header := [], header_signature := "b", payload := [] }

/-- A submit-id oracle for wait-phase witnesses. -/
def sigmaW : String → String := fun _ => "NEW"

/-- C8 counterexample states: add `txA`, give it a submit id, then `add_tx`
the same transaction again. -/
def s8a : RedbState := addsState 0 [txA]

def s8b : RedbState := exOk (s8a.update_tx "a" (some "S") none) s8a

def s8c : RedbState := s8b.add_tx 0 txA

/-- C4/C5 witness base state: two transactions with submit ids `"S"`/`"T"`. -/
def s45a : RedbState := addsState 0 [txA, txB]

def s45b : RedbState := exOk (s45a.update_tx "a" (some "S") (some TransactionStatus.Queued)) s45a

def s45 : RedbState := exOk (s45b.update_tx "b" (some "T") (some TransactionStatus.Queued)) s45b

/-- The store after a poll response carrying an unrecognized status string. -/
def s4c1 : RedbState := exOk (update_tx_statuses s45 0 [("S", "BOGUS")]) s45

/-! ## Supporting lemmas -/

theorem decodeOp_encodePayload (p : Payload) :
    decodeOp (encodePayload p) = some p.operation := by
  cases p with
  | mk op uuid mode block filename address amount perm ppk tc ta ts => cases op <;> rfl

theorem decodeHeader_encodeHeader (h : TransactionHeader) :
    decodeHeader (encodeHeader h) = some h := rfl

theorem find?_filter_ne_none (l : List (Nat × Nat)) (k : Nat) :
    (l.filter (fun p => !(p.1 == k))).find? (fun p => p.1 == k) = none := by
  rw [List.find?_eq_none]
  intro x hx
  rcases List.mem_filter.mp hx with ⟨_, hq⟩
  simpa using hq

theorem lookupA_insertA_self (l : List (Nat × Nat)) (k v : Nat) :
    lookupA (insertA l k v) k = some v := by
  unfold lookupA insertA
  rw [List.find?_append, find?_filter_ne_none]
  simp

theorem lookupA_removeA_self (l : List (Nat × Nat)) (k : Nat) :
    lookupA (removeA l k) k = none := by
  unfold lookupA removeA
  rw [find?_filter_ne_none]
  rfl

theorem not_mem_map_fst_removeA (l : List (Nat × Nat)) (k : Nat) :
    k ∉ (removeA l k).map Prod.fst := by
  intro hmem
  rcases List.mem_map.mp hmem with ⟨p, hp, hfst⟩
  rcases List.mem_filter.mp hp with ⟨_, hne⟩
  simp [hfst] at hne

/-! ## C1: transactions built by TransactionBuilder validate -/

/-- C1. For every transaction successfully returned by
`TransactionBuilder::build` with signer `sg` and any payload, `validate()`
succeeds: the header signature verifies over the exact header bytes under
the signer's public key, and the recomputed payload SHA-512 hex matches the
header's `payload_sha512` field. (Under the spec's signing contract for
`sg`; the build fails only on missing fields.) -/
theorem build_validate_ok (b : TransactionBuilder) (c : Crypto) (sg : SignerM)
    (nr : List Nat) (t : Transaction) (hsg : c.SignerOk sg)
    (hb : b.build c sg nr = Except.ok t) : t.validate c = Except.ok () := by
  rcases hsg with ⟨hkey, hsig⟩
  rcases hfn : b.family_name with _ | fn <;> rw [TransactionBuilder.build, hfn] at hb
  · exact absurd hb (by simp)
  rcases hfv : b.family_version with _ | fv <;> rw [hfv] at hb
  · exact absurd hb (by simp)
  rcases hp : b.payload with _ | p <;> rw [hp] at hb
  · exact absurd hb (by simp)
  simp only [Except.ok.injEq] at hb
  subst hb
  have h1 := (hsig (encodeHeader
    { signer_public_key := sg.pubHex,
      batcher_public_key :=
        match b.batcher_public_key with
        | some key_bytes => hexEncode key_bytes
        | none => sg.pubHex,
      dependencies := b.dependencies.getD [],
      family_name := fn, family_version := fv,
      inputs := [get_tfslite_addr c], outputs := [get_tfslite_addr c],
      nonce := hexEncode (b.nonce.getD nr),
      payload_sha512 := c.sha512hex (encodePayload p) })).1
  have h2 := (hsig (encodeHeader
    { signer_public_key := sg.pubHex,
      batcher_public_key :=
        match b.batcher_public_key with
        | some key_bytes => hexEncode key_bytes
        | none => sg.pubHex,
      dependencies := b.dependencies.getD [],
      family_name := fn, family_version := fv,
      inputs := [get_tfslite_addr c], outputs := [get_tfslite_addr c],
      nonce := hexEncode (b.nonce.getD nr),
      payload_sha512 := c.sha512hex (encodePayload p) })).2
  simp [Transaction.validate, decodeHeader_encodeHeader, hkey, h1, h2]

theorem cryptoW_signerOk : cryptoW.SignerOk signerW :=
  ⟨rfl, fun _ => ⟨rfl, rfl⟩⟩

/-- C1 witness: a concrete seal transaction built with the concrete signer
validates. -/
theorem build_validate_ok_witness : txW.validate cryptoW = Except.ok () :=
  build_validate_ok builderW cryptoW signerW [] txW cryptoW_signerOk rfl

/-! ## C9: flush_txs removes the file -/

/-- C9. After `flush_txs f`, `get_txs f` fails with `NoSuchFile` and
`get_files()` no longer includes `f` — for every prior store state, so in
particular regardless of how many rows existed for `f`. -/
theorem flush_txs_removes_file (s : RedbState) (f : Nat) :
    (s.flush_txs f).get_txs f = Except.error LocalStateStoreError.NoSuchFile
    ∧ f ∉ (s.flush_txs f).get_files := by
  constructor
  · simp [RedbState.get_txs, RedbState.flush_txs, lookupA_removeA_self]
  · simpa [RedbState.get_files, RedbState.flush_txs] using
      not_mem_map_fst_removeA s.files f

/-! ## C2/C10: add_tx and the order counter -/

theorem collectRows_congr (s s2 : RedbState) (l : List String)
    (h : ∀ id ∈ l, s2.txInfo id = s.txInfo id) :
    collectRows s2 l = collectRows s l := by
  induction l with
  | nil => rfl
  | cons id rest ih =>
    have hid := h id (by simp)
    have hrest := ih (fun j hj => h j (by simp [hj]))
    simp only [collectRows, hid, hrest]

theorem collectRows_append (s : RedbState) (l1 l2 : List String)
    (r1 r2 : List TransactionInfo) (h1 : collectRows s l1 = Except.ok r1)
    (h2 : collectRows s l2 = Except.ok r2) :
    collectRows s (l1 ++ l2) = Except.ok (r1 ++ r2) := by
  induction l1 generalizing r1 with
  | nil =>
    simp only [collectRows] at h1
    cases h1
    simpa using h2
  | cons id rest ih =>
    rw [collectRows] at h1
    cases hv : s.txInfo id with
    | none => rw [hv] at h1; exact absurd h1 (by simp)
    | some v =>
      rw [hv] at h1
      cases hr : collectRows s rest with
      | error e => rw [hr] at h1; exact absurd h1 (by simp)
      | ok rs =>
        rw [hr] at h1
        simp only [Except.ok.injEq] at h1
        subst h1
        simp only [List.cons_append, collectRows, hv, List.append_eq, ih rs hr,
          List.append_assoc]

theorem mkRows_append (k : Nat) (l1 l2 : List Transaction) :
    mkRows k (l1 ++ l2) = mkRows k l1 ++ mkRows (k + l1.length) l2 := by
  induction l1 generalizing k with
  | nil => simp [mkRows]
  | cons t rest ih =>
    have harith : k + 1 + rest.length = k + (rest.length + 1) := by omega
    simp [mkRows, ih, harith]

theorem mkRows_orders (k : Nat) (l : List Transaction) :
    (mkRows k l).map TransactionInfo.order = List.range' k l.length := by
  induction l generalizing k with
  | nil => rfl
  | cons t rest ih => simp [mkRows, List.range', ih]

theorem mkRows_length (k : Nat) (l : List Transaction) :
    (mkRows k l).length = l.length := by
  induction l generalizing k with
  | nil => rfl
  | cons t rest ih => simp [mkRows, ih]

theorem mkRows_order_le (k : Nat) (l : List Transaction) :
    ∀ r ∈ mkRows k l, k ≤ r.order := by
  induction l generalizing k with
  | nil => simp [mkRows]
  | cons t rest ih =>
    intro r hr
    rcases (List.mem_cons).mp hr with h | h
    · subst h; exact Nat.le_refl k
    · exact Nat.le_of_lt (Nat.lt_of_lt_of_le (Nat.lt_succ_self k) (ih (k + 1) r h))

theorem mkRows_sorted (k : Nat) (l : List Transaction) :
    List.Sorted (fun a b : TransactionInfo => a.order ≤ b.order) (mkRows k l) := by
  induction l generalizing k with
  | nil => exact List.sorted_nil
  | cons t rest ih =>
    refine List.sorted_cons.mpr ⟨?_, ih (k + 1)⟩
    intro b hb
    exact Nat.le_of_succ_le (mkRows_order_le (k + 1) rest b hb)

theorem addsState_spec (fid : Nat) (txs : List Transaction)
    (hnd : (txs.map Transaction.header_signature).Nodup) :
    (lookupA (addsState fid txs).files fid).getD 0 = txs.length
    ∧ (txs ≠ [] → lookupA (addsState fid txs).files fid = some txs.length)
    ∧ (addsState fid txs).fileTxs fid = txs.map Transaction.header_signature
    ∧ collectRows (addsState fid txs) (txs.map Transaction.header_signature)
        = Except.ok (mkRows 0 txs) := by
  induction txs using List.reverseRecOn with
  | nil =>
    refine ⟨rfl, fun h => absurd rfl h, rfl, rfl⟩
  | append_singleton l t ih =>
    have hmap : (l ++ [t]).map Transaction.header_signature
        = l.map Transaction.header_signature ++ [t.header_signature] := by simp
    rw [hmap] at hnd
    rcases List.nodup_append.mp hnd with ⟨hndl, _, hdisj⟩
    have hnotin : t.header_signature ∉ l.map Transaction.header_signature := by
      intro hmem
      exact hdisj hmem (by simp)
    obtain ⟨ih1, _, ih3, ih4⟩ := ih hndl
    have hstep : addsState fid (l ++ [t]) = (addsState fid l).add_tx fid t := by
      simp [addsState, List.foldl_append]
    set s := addsState fid l with hs
    have hnext : (lookupA s.files fid).getD 0 = l.length := ih1
    have hfiles : lookupA ((s.add_tx fid t).files) fid = some (l.length + 1) := by
      rw [RedbState.add_tx]
      simp only [hnext]
      exact lookupA_insertA_self _ _ _
    have hfileTxs : (s.add_tx fid t).fileTxs fid
        = (l ++ [t]).map Transaction.header_signature := by
      rw [RedbState.add_tx]
      simp [ih3, hnotin]
    have htxInfoOld : ∀ id ∈ l.map Transaction.header_signature,
        (s.add_tx fid t).txInfo id = s.txInfo id := by
      intro id hid
      have hne : id ≠ t.header_signature := by
        intro h; exact hnotin (h ▸ hid)
      rw [RedbState.add_tx]
      simp only [hnext]
      exact if_neg hne
    have htxInfoNew : (s.add_tx fid t).txInfo t.header_signature
        = some { order := l.length, submit_id := "",
                 status := TransactionStatus.Local.toStr } := by
      rw [RedbState.add_tx]
      simp [hnext]
    have hcoll : collectRows (s.add_tx fid t) ((l ++ [t]).map Transaction.header_signature)
        = Except.ok (mkRows 0 (l ++ [t])) := by
      rw [hmap]
      have hl : collectRows (s.add_tx fid t) (l.map Transaction.header_signature)
          = Except.ok (mkRows 0 l) := by
        rw [collectRows_congr (s := s) _ _ htxInfoOld]
        exact ih4
      have ht : collectRows (s.add_tx fid t) [t.header_signature]
          = Except.ok [{ order := l.length, tx_id := t.header_signature,
                         submit_id := none, status := TransactionStatus.Local }] := by
        rw [collectRows, htxInfoNew, collectRows]
        rfl
      rw [collectRows_append _ _ _ _ _ hl ht, mkRows_append]
      simp [mkRows]
    rw [hstep]
    refine ⟨?_, fun _ => ?_, hfileTxs, hcoll⟩
    · rw [hfiles]; simp
    · rw [hfiles]; simp

/-- C2 (amended). For every `file_id` and every `N ≥ 1`, after `N`
successful `add_tx` calls for that `file_id` — starting from an empty store
and with pairwise-distinct header signatures — `get_txs` returns exactly `N`
rows whose order fields are `0, 1, ..., N-1`, sorted ascending by order.
(For `N = 0` the call fails with `NoSuchFile`, and with duplicate header
signatures rows collapse; see the counterexample.) -/
theorem get_txs_after_adds (fid : Nat) (txs : List Transaction)
    (hne : txs ≠ []) (hnd : (txs.map Transaction.header_signature).Nodup) :
    (addsState fid txs).get_txs fid = Except.ok (mkRows 0 txs)
    ∧ (mkRows 0 txs).map TransactionInfo.order = List.range txs.length
    ∧ (mkRows 0 txs).length = txs.length := by
  obtain ⟨_, h2, h3, h4⟩ := addsState_spec fid txs hnd
  refine ⟨?_, ?_, mkRows_length 0 txs⟩
  · rw [RedbState.get_txs, h2 hne, h3, h4]
    exact congrArg Except.ok (List.Sorted.insertionSort_eq (mkRows_sorted 0 txs))
  · rw [mkRows_orders, List.range_eq_range']

/-- C2 witness: two distinct transactions give rows with orders `[0, 1]`. -/
theorem get_txs_after_adds_witness :
    (addsState 0 [txA, txB]).get_txs 0 = Except.ok (mkRows 0 [txA, txB])
    ∧ (mkRows 0 [txA, txB]).map TransactionInfo.order = List.range 2
    ∧ (mkRows 0 [txA, txB]).length = 2 :=
  get_txs_after_adds 0 [txA, txB] (by decide) (by decide)

/-- C2 counterexample: two `add_tx` calls with the same header signature
leave a single row (with order 1), not two rows with orders `0, 1` as the
claim requires for `N = 2`. -/
theorem get_txs_after_adds_cex :
    (addsState 0 [txA, txA]).get_txs 0
      = Except.ok [{ order := 1, tx_id := "a", submit_id := none,
                     status := TransactionStatus.Local }]
    ∧ ([{ order := 1, tx_id := "a", submit_id := none,
          status := TransactionStatus.Local }] : List TransactionInfo).length ≠ 2 :=
  ⟨rfl, by decide⟩

/-- C10. In the native backend, `add_tx` twice for the same file with the
same header signature succeeds both times and sets `next_order` to 2, but
leaves exactly one `TransactionInfo` row for that id, with order 1 — so the
`N`-rows-with-orders-`0..N-1` property needs distinct header signatures. -/
theorem add_tx_duplicate_signature (fid : Nat) (t : Transaction) :
    lookupA (((emptyState.add_tx fid t).add_tx fid t).files) fid = some 2
    ∧ ((emptyState.add_tx fid t).add_tx fid t).get_txs fid
        = Except.ok [{ order := 1, tx_id := t.header_signature, submit_id := none,
                       status := TransactionStatus.Local }] := by
  have h1 : (emptyState.add_tx fid t).files = [(fid, 1)] := rfl
  have h1b : (emptyState.add_tx fid t).fileTxs fid = [t.header_signature] := by
    simp [RedbState.add_tx, emptyState]
  have hnext : lookupA (emptyState.add_tx fid t).files fid = some 1 := by
    rw [h1]
    simp [lookupA, List.find?]
  have h2 : (((emptyState.add_tx fid t).add_tx fid t).files) = [(fid, 2)] := by
    rw [RedbState.add_tx, hnext, h1]
    simp [insertA, List.filter]
  have hlook : lookupA (((emptyState.add_tx fid t).add_tx fid t).files) fid = some 2 := by
    rw [h2]
    simp [lookupA, List.find?]
  refine ⟨hlook, ?_⟩
  rw [RedbState.get_txs, hlook]
  have hft : ((emptyState.add_tx fid t).add_tx fid t).fileTxs fid = [t.header_signature] := by
    rw [RedbState.add_tx]
    simp [h1b]
  have hti : ((emptyState.add_tx fid t).add_tx fid t).txInfo t.header_signature
      = some { order := 1, submit_id := "", status := TransactionStatus.Local.toStr } := by
    rw [RedbState.add_tx]
    simp [hnext]
  rw [hft, collectRows, hti, collectRows]
  rfl

/-! ## C3/C6/C7: prepare_transactions -/

theorem depsOf_buildDriverTx (c : Crypto) (sg : SignerM) (batcher : List Nat)
    (deps : Option (List String)) (p : Payload) (nonce : List Nat) :
    depsOf (buildDriverTx c sg batcher deps p nonce) = deps.getD [] := by
  cases deps <;> rfl

theorem decodeOp_buildDriverTx (c : Crypto) (sg : SignerM) (batcher : List Nat)
    (deps : Option (List String)) (p : Payload) (nonce : List Nat) :
    decodeOp (buildDriverTx c sg batcher deps p nonce).payload = some p.operation := by
  cases deps <;> exact decodeOp_encodePayload p

theorem depositPayload_op (sg : SignerM) :
    (depositPayload sg).operation = PayloadOperation.AccountDeposit := rfl

theorem createPayload_op (ub : List Nat) (fn : String) :
    (createPayload ub fn).operation = PayloadOperation.FileCreate := rfl

theorem appendPayload_op (c : Crypto) (ub : List Nat) (d : List Nat) :
    (appendPayload c ub d).operation = PayloadOperation.FileAppend := rfl

theorem sealPayload_op (ub : List Nat) :
    (sealPayload ub).operation = PayloadOperation.FileSeal := rfl

theorem prepareGo_len (c : Crypto) (sg : SignerM) (batcher : List Nat) (fid : Nat)
    (ub : List Nat) (nonces : Nat → List Nat) (total : Nat) :
    ∀ (chunks : List (List Nat)) (s : RedbState) (prev : String) (i processed : Nat),
      (prepareGo c sg batcher fid ub nonces total s prev i processed chunks).2.1.length
        = chunks.length + 1 := by
  intro chunks
  induction chunks with
  | nil => intro s prev i processed; rfl
  | cons d rest ih =>
    intro s prev i processed
    simp [prepareGo, ih]

theorem prepareGo_reports (c : Crypto) (sg : SignerM) (batcher : List Nat) (fid : Nat)
    (ub : List Nat) (nonces : Nat → List Nat) (total : Nat) :
    ∀ (chunks : List (List Nat)) (s : RedbState) (prev : String) (i processed : Nat),
      (prepareGo c sg batcher fid ub nonces total s prev i processed chunks).2.2
        = (List.range' (processed + 1) (chunks.length + 1)).map (fun k => (k, total)) := by
  intro chunks
  induction chunks with
  | nil => intro s prev i processed; simp [prepareGo, List.range']
  | cons d rest ih =>
    intro s prev i processed
    simp [prepareGo, ih, List.range']

theorem prepareGo_chained (c : Crypto) (sg : SignerM) (batcher : List Nat) (fid : Nat)
    (ub : List Nat) (nonces : Nat → List Nat) (total : Nat) :
    ∀ (chunks : List (List Nat)) (s : RedbState) (prev : String) (i processed : Nat),
      Chained prev (prepareGo c sg batcher fid ub nonces total s prev i processed chunks).2.1 := by
  intro chunks
  induction chunks with
  | nil =>
    intro s prev i processed
    exact ⟨depsOf_buildDriverTx c sg batcher (some [prev]) _ _, trivial⟩
  | cons d rest ih =>
    intro s prev i processed
    exact ⟨depsOf_buildDriverTx c sg batcher (some [prev]) _ _, ih _ _ _ _⟩

theorem prepareGo_ops (c : Crypto) (sg : SignerM) (batcher : List Nat) (fid : Nat)
    (ub : List Nat) (nonces : Nat → List Nat) (total : Nat) :
    ∀ (chunks : List (List Nat)) (s : RedbState) (prev : String) (i processed : Nat),
      (prepareGo c sg batcher fid ub nonces total s prev i processed chunks).2.1.map
          (fun t => decodeOp t.payload)
        = chunks.map (fun _ => some PayloadOperation.FileAppend)
            ++ [some PayloadOperation.FileSeal] := by
  intro chunks
  induction chunks with
  | nil =>
    intro s prev i processed
    simp [prepareGo, decodeOp_buildDriverTx, sealPayload_op]
  | cons d rest ih =>
    intro s prev i processed
    simp [prepareGo, decodeOp_buildDriverTx, appendPayload_op, ih]

theorem chunkify_len_aux (csize : Nat) (hc : 0 < csize) :
    ∀ (n : Nat) (d : List Nat), d.length ≤ n →
      (chunkifyGo csize n d).length = (d.length + csize - 1) / csize := by
  intro n
  induction n with
  | zero =>
    intro d hd
    have hnil : d = [] := List.eq_nil_of_length_eq_zero (Nat.le_zero.mp hd)
    subst hnil
    simp [chunkifyGo, Nat.div_eq_of_lt (show csize - 1 < csize by omega)]
  | succ n ih =>
    intro d hd
    cases d with
    | nil => simp [chunkifyGo, Nat.div_eq_of_lt (show csize - 1 < csize by omega)]
    | cons x rest =>
      rw [chunkifyGo, if_neg (Nat.pos_iff_ne_zero.mp hc)]
      have hle : ((x :: rest).drop csize).length ≤ n := by
        simp only [List.length_drop, List.length_cons] at *
        omega
      have ihd := ih _ hle
      simp only [List.length_drop, List.length_cons] at ihd ⊢
      rcases le_or_lt (rest.length + 1) csize with hle2 | hgt
      · have h0 : rest.length + 1 - csize = 0 := by omega
        rw [h0] at ihd
        have hz : (0 + csize - 1) / csize = 0 := Nat.div_eq_of_lt (by omega)
        rw [hz] at ihd
        rw [ihd]
        have hone : (rest.length + 1 + csize - 1) / csize = 1 := by
          apply Nat.div_eq_of_lt_le <;> omega
        rw [hone]
      · have hrw : rest.length + 1 + csize - 1
            = (rest.length + 1 - csize + csize - 1) + csize := by omega
        rw [ihd, hrw, Nat.add_div_right _ hc]

theorem chunkify_length (csize : Nat) (hc : 0 < csize) (d : List Nat) :
    (chunkify csize d).length = (d.length + csize - 1) / csize :=
  chunkify_len_aux csize hc d.length d (Nat.le_refl _)

theorem totalTxs_eq_ceil (S csize : Nat) (hc : 0 < csize) :
    totalTxs S csize = (S + csize - 1) / csize + 3 := by
  unfold totalTxs
  obtain ⟨q, r, hr, hS⟩ : ∃ q r, r < csize ∧ S = csize * q + r :=
    ⟨S / csize, S % csize, Nat.mod_lt _ hc, by rw [Nat.div_add_mod]⟩
  subst hS
  have hdiv : (csize * q + r) / csize = q + r / csize := by
    rw [Nat.mul_comm, Nat.add_comm, Nat.add_mul_div_right _ _ hc, Nat.add_comm]
  have hmod : (csize * q + r) % csize = r := by
    rw [Nat.mul_comm, Nat.add_comm, Nat.add_mul_mod_self_right, Nat.mod_eq_of_lt hr]
  rw [hdiv, hmod, Nat.div_eq_of_lt hr]
  rcases Nat.eq_zero_or_pos r with hr0 | hrpos
  · subst hr0
    have heq : csize * q + 0 + csize - 1 = (csize - 1) + q * csize := by
      have := Nat.mul_comm csize q
      omega
    rw [heq, Nat.add_mul_div_right _ _ hc, Nat.div_eq_of_lt (show csize - 1 < csize by omega)]
    simp
  · have heq : csize * q + r + csize - 1 = (r - 1) + (q + 1) * csize := by
      have h1 : (q + 1) * csize = q * csize + csize := by ring
      have h2 := Nat.mul_comm csize q
      omega
    rw [heq, Nat.add_mul_div_right _ _ hc, Nat.div_eq_of_lt (show r - 1 < csize by omega)]
    simp only [if_pos hrpos]
    omega

/-- C6. `prepare_transactions` on a file of size `S` with chunk size
`csize > 0` performs exactly `ceil(S/csize) + 3` `add_tx` calls (one per
emitted transaction) and uses `total = ceil(S/csize) + 3` in its progress
reports; for an empty file it emits exactly DEPOSIT, CREATE, SEAL (no
APPEND) with `total = 0 + 3`. -/
theorem prepare_tx_count (c : Crypto) (sg : SignerM) (batcher : List Nat) (fid : Nat)
    (ub : List Nat) (filename : String) (nonces : Nat → List Nat) (s0 : RedbState)
    (data : List Nat) (csize : Nat) (hc : 0 < csize) :
    ((prepare_transactions c sg batcher fid ub filename nonces s0 data csize).2.1).length
      = totalTxs data.length csize
    ∧ totalTxs data.length csize = (data.length + csize - 1) / csize + 3
    ∧ (∀ r ∈ (prepare_transactions c sg batcher fid ub filename nonces s0 data csize).2.2,
        r.2 = totalTxs data.length csize)
    ∧ (data = [] →
        ((prepare_transactions c sg batcher fid ub filename nonces s0 data csize).2.1).map
            (fun t => decodeOp t.payload)
          = [some PayloadOperation.AccountDeposit, some PayloadOperation.FileCreate,
             some PayloadOperation.FileSeal]
        ∧ totalTxs data.length csize = 3) := by
  refine ⟨?_, totalTxs_eq_ceil data.length csize hc, ?_, ?_⟩
  · simp only [prepare_transactions, List.length_cons,
      prepareGo_len c sg batcher fid ub nonces _ (chunkify csize data)]
    rw [chunkify_length csize hc data, totalTxs_eq_ceil data.length csize hc]
  · intro r hr
    simp only [prepare_transactions, List.mem_cons,
      prepareGo_reports c sg batcher fid ub nonces _ (chunkify csize data)] at hr
    rcases hr with hr | hr
    · rw [hr]
    · rcases List.mem_map.mp hr with ⟨k, _, hk⟩
      rw [← hk]
  · intro hdata
    subst hdata
    constructor
    · simp only [prepare_transactions, List.map_cons,
        prepareGo_ops c sg batcher fid ub nonces _ (chunkify csize [])]
      simp [chunkify, chunkifyGo, decodeOp_buildDriverTx, depositPayload_op, createPayload_op]
    · simp [totalTxs]

/-- C6 witness: an empty file with chunk size 2 gives three transactions
DEPOSIT, CREATE, SEAL and total 3. -/
theorem prepare_tx_count_witness :
    ((prepare_transactions cryptoW signerW [] 0 [] ("f") (fun _ => [])
        emptyState [] 2).2.1).length = totalTxs 0 2
    ∧ totalTxs 0 2 = (0 + 2 - 1) / 2 + 3
    ∧ (∀ r ∈ (prepare_transactions cryptoW signerW [] 0 [] ("f") (fun _ => [])
          emptyState [] 2).2.2, r.2 = totalTxs 0 2)
    ∧ (([] : List Nat) = [] →
        ((prepare_transactions cryptoW signerW [] 0 [] ("f") (fun _ => [])
            emptyState [] 2).2.1).map (fun t => decodeOp t.payload)
          = [some PayloadOperation.AccountDeposit, some PayloadOperation.FileCreate,
             some PayloadOperation.FileSeal]
        ∧ totalTxs 0 2 = 3) :=
  prepare_tx_count cryptoW signerW [] 0 [] ("f") (fun _ => []) emptyState [] 2 (by decide)

/-- C7 (amended). During `prepare_transactions` (chunk size positive) the
progress reports are `(2, total), (3, total), ..., (total, total)`: the
deposit and create transactions share a single report of `(2, total)` after
the second `add_tx`, and from then on one report follows each `add_tx`.
(The claim's `1, 2, ..., total` fails: no `(1, total)` report is ever
delivered; see the counterexample.) -/
theorem prepare_report_values (c : Crypto) (sg : SignerM) (batcher : List Nat) (fid : Nat)
    (ub : List Nat) (filename : String) (nonces : Nat → List Nat) (s0 : RedbState)
    (data : List Nat) (csize : Nat) (hc : 0 < csize) :
    (prepare_transactions c sg batcher fid ub filename nonces s0 data csize).2.2
      = (List.range' 2 ((chunkify csize data).length + 2)).map
          (fun k => (k, totalTxs data.length csize))
    ∧ ((prepare_transactions c sg batcher fid ub filename nonces s0 data csize).2.2).map
          Prod.fst
        = List.range' 2 (totalTxs data.length csize - 1) := by
  have hrep : (prepare_transactions c sg batcher fid ub filename nonces s0 data csize).2.2
      = (List.range' 2 ((chunkify csize data).length + 2)).map
          (fun k => (k, totalTxs data.length csize)) := by
    simp only [prepare_transactions,
      prepareGo_reports c sg batcher fid ub nonces _ (chunkify csize data)]
    simp [List.range']
  refine ⟨hrep, ?_⟩
  rw [hrep]
  have hlen : (chunkify csize data).length + 2 = totalTxs data.length csize - 1 := by
    rw [chunkify_length csize hc data, totalTxs_eq_ceil data.length csize hc]
    generalize (data.length + csize - 1) / csize = q
    omega
  rw [← hlen]
  simp [List.map_map, Function.comp_def]

/-- C7 witness: one file with two chunks reports
`(2, 5), (3, 5), (4, 5), (5, 5)`. -/
theorem prepare_report_values_witness :
    (prepare_transactions cryptoW signerW [] 0 [] ("f") (fun _ => [])
        emptyState [1, 2, 3] 2).2.2
      = (List.range' 2 ((chunkify 2 [1, 2, 3]).length + 2)).map
          (fun k => (k, totalTxs 3 2))
    ∧ ((prepare_transactions cryptoW signerW [] 0 [] ("f") (fun _ => [])
          emptyState [1, 2, 3] 2).2.2).map Prod.fst
        = List.range' 2 (totalTxs 3 2 - 1) :=
  prepare_report_values cryptoW signerW [] 0 [] ("f") (fun _ => [])
    emptyState [1, 2, 3] 2 (by decide)

/-- C7 counterexample: for an empty file with chunk size 1 the reports are
`[(2, 3), (3, 3)]`, not the `[(1, 3), (2, 3), (3, 3)]` the claim requires
(no report carries `processed = 1`, and there are `total - 1` reports, not
one per `add_tx`). -/
theorem prepare_report_values_cex :
    (prepare_transactions cryptoW signerW [] 0 [] ("f") (fun _ => [])
        emptyState [] 1).2.2 = [(2, 3), (3, 3)]
    ∧ ([(2, 3), (3, 3)] : List (Nat × Nat)) ≠ [(1, 3), (2, 3), (3, 3)] :=
  ⟨rfl, by decide⟩

theorem chained_get (l : List Transaction) (p : String) (h : Chained p l) :
    ∀ (i : Nat) (h1 : i + 1 < l.length),
      depsOf (l.get ⟨i + 1, h1⟩)
        = [(l.get ⟨i, by omega⟩).header_signature] := by
  induction l generalizing p with
  | nil => intro i h1; simp at h1
  | cons t rest ih =>
    obtain ⟨hd, hc⟩ := h
    intro i h1
    cases i with
    | zero =>
      cases rest with
      | nil => simp at h1
      | cons r rest2 =>
        obtain ⟨hr, _⟩ := hc
        exact hr
    | succ j =>
      have h2 : j + 1 < rest.length := by simpa using h1
      exact ih t.header_signature hc j h2

theorem chainedList_get (l : List Transaction) (h : ChainedList l) (i : Nat)
    (h1 : 0 < i) (h2 : i < l.length) :
    depsOf (l.get ⟨i, h2⟩) = [(l.get ⟨i - 1, by omega⟩).header_signature] := by
  cases l with
  | nil => simp at h2
  | cons t rest =>
    obtain ⟨_, hc⟩ := h
    obtain ⟨j, rfl⟩ : ∃ j, i = j + 1 := ⟨i - 1, by omega⟩
    cases j with
    | zero =>
      cases rest with
      | nil => simp at h2
      | cons r rest2 => exact hc.1
    | succ k =>
      have h3 : k + 1 < rest.length := by simpa using h2
      exact chained_get rest t.header_signature hc k h3

/-- C3. In the sequence emitted by `prepare_transactions` for one file, the
first transaction is the `ACCOUNT_DEPOSIT` and has an empty dependencies
list, and for every `i ≥ 1` the `i`-th transaction's header dependencies
are exactly the one-element list holding the `(i-1)`-th transaction's
header signature. -/
theorem prepare_dependency_chain (c : Crypto) (sg : SignerM) (batcher : List Nat)
    (fid : Nat) (ub : List Nat) (filename : String) (nonces : Nat → List Nat)
    (s0 : RedbState) (data : List Nat) (csize : Nat) :
    ((prepare_transactions c sg batcher fid ub filename nonces s0 data csize).2.1.head?.map
        depsOf = some [])
    ∧ ((prepare_transactions c sg batcher fid ub filename nonces s0 data csize).2.1.head?.map
        (fun t => decodeOp t.payload) = some (some PayloadOperation.AccountDeposit))
    ∧ ∀ (i : Nat), 0 < i →
        ∀ (h2 : i < (prepare_transactions c sg batcher fid ub filename nonces
            s0 data csize).2.1.length),
          depsOf ((prepare_transactions c sg batcher fid ub filename nonces
              s0 data csize).2.1.get ⟨i, h2⟩)
            = [((prepare_transactions c sg batcher fid ub filename nonces
                s0 data csize).2.1.get ⟨i - 1, by omega⟩).header_signature] := by
  have hchain : ChainedList
      (prepare_transactions c sg batcher fid ub filename nonces s0 data csize).2.1 := by
    refine ⟨depsOf_buildDriverTx c sg batcher none _ _,
            depsOf_buildDriverTx c sg batcher (some _) _ _,
            prepareGo_chained c sg batcher fid ub nonces _ _ _ _ _ _⟩
  refine ⟨?_, ?_, ?_⟩
  · simp only [prepare_transactions, List.head?_cons, Option.map_some']
    rw [depsOf_buildDriverTx c sg batcher none _ _]
    rfl
  · simp only [prepare_transactions, List.head?_cons, Option.map_some']
    rw [decodeOp_buildDriverTx c sg batcher none _ _, depositPayload_op]
  · intro i h1 h2
    exact chainedList_get _ hchain i h1 h2

/-- C3 witness: in a concrete prepared sequence, transaction 1 depends
exactly on transaction 0's header signature. -/
theorem prepare_dependency_chain_witness :
    depsOf (((prepare_transactions cryptoW signerW [] 0 [] ("f") (fun _ => [])
        emptyState [1, 2, 3] 2).2.1).get ⟨1, by decide⟩)
      = [(((prepare_transactions cryptoW signerW [] 0 [] ("f") (fun _ => [])
          emptyState [1, 2, 3] 2).2.1).get ⟨0, by decide⟩).header_signature] :=
  (prepare_dependency_chain cryptoW signerW [] 0 [] ("f") (fun _ => [])
    emptyState [1, 2, 3] 2).2.2 1 (by decide) (by decide)

/-! ## C4/C5/C8 supporting lemmas: update_tx, the submit-id map, get_txs -/

theorem update_tx_ok (s : RedbState) (tx_id : String) (sub : Option String)
    (st : Option TransactionStatus) (v : TxInfoVal) (h : s.txInfo tx_id = some v) :
    s.update_tx tx_id sub st = Except.ok
      { s with txInfo := fun id =>
          if id = tx_id then
            some { order := v.order, submit_id := sub.getD v.submit_id,
                   status := (st.map TransactionStatus.toStr).getD v.status }
          else s.txInfo id } := by
  rw [RedbState.update_tx, h]

theorem update_tx_err (s : RedbState) (tx_id : String) (sub : Option String)
    (st : Option TransactionStatus) (h : s.txInfo tx_id = none) :
    s.update_tx tx_id sub st = Except.error LocalStateStoreError.NoSuchTransaction := by
  rw [RedbState.update_tx, h]

theorem update_tx_frame (s : RedbState) (tx_id : String) (sub : Option String)
    (st : Option TransactionStatus) (s2 : RedbState)
    (h : s.update_tx tx_id sub st = Except.ok s2) :
    s2.files = s.files ∧ s2.fileTxs = s.fileTxs ∧ s2.txBytes = s.txBytes
    ∧ (∀ id, id ≠ tx_id → s2.txInfo id = s.txInfo id)
    ∧ (∀ id, (s2.txInfo id).map TxInfoVal.order = (s.txInfo id).map TxInfoVal.order)
    ∧ (∀ id, (s2.txInfo id).isSome = (s.txInfo id).isSome) := by
  cases hv : s.txInfo tx_id with
  | none => rw [update_tx_err s tx_id sub st hv] at h; exact absurd h (by simp)
  | some v =>
    rw [update_tx_ok s tx_id sub st v hv] at h
    simp only [Except.ok.injEq] at h
    subst h
    refine ⟨rfl, rfl, rfl, ?_, ?_, ?_⟩
    · intro id hne
      exact if_neg hne
    · intro id
      by_cases hid : id = tx_id
      · subst hid
        simp [hv]
      · simp [if_neg hid]
    · intro id
      by_cases hid : id = tx_id
      · subst hid
        simp [hv]
      · simp [if_neg hid]

theorem mapLookup_nodup (m : List (String × String))
    (hnd : (m.map Prod.fst).Nodup) (k : String) :
    mapLookup m k = (m.find? (fun p => p.1 == k)).map Prod.snd := by
  induction m with
  | nil => rfl
  | cons p m ih =>
    have hnotin : p.1 ∉ m.map Prod.fst := (List.nodup_cons.mp hnd).1
    have hndm : (m.map Prod.fst).Nodup := (List.nodup_cons.mp hnd).2
    unfold mapLookup
    rw [List.reverse_cons, List.find?_append]
    by_cases hk : p.1 = k
    · have hnone : m.reverse.find? (fun q => q.1 == k) = none := by
        rw [List.find?_eq_none]
        intro q hq
        have hqm : q ∈ m := List.mem_reverse.mp hq
        intro hqk
        have hq1 : q.1 = k := by simpa using hqk
        apply hnotin
        have hmem : q.1 ∈ m.map Prod.fst := List.mem_map.mpr ⟨q, hqm, rfl⟩
        rwa [hq1, ← hk] at hmem
      have h1 : List.find? (fun q => q.1 == k) [p] = some p :=
        List.find?_cons_of_pos _ (by simpa using hk)
      have h2 : List.find? (fun q => q.1 == k) (p :: m) = some p :=
        List.find?_cons_of_pos _ (by simpa using hk)
      rw [hnone, h1, h2]
      rfl
    · have h1 : List.find? (fun q => q.1 == k) [p] = none := by
        rw [List.find?_cons_of_neg _ (by simpa using hk)]
        rfl
      have h2 : List.find? (fun q => q.1 == k) (p :: m) = List.find? (fun q => q.1 == k) m :=
        List.find?_cons_of_neg _ (by simpa using hk)
      rw [h1, Option.or_none, h2]
      have hm := ih hndm
      unfold mapLookup at hm
      exact hm

theorem mapLookup_mem (m : List (String × String)) (k tid : String)
    (h : mapLookup m k = some tid) :
    ∃ p ∈ m, p.1 = k ∧ p.2 = tid := by
  unfold mapLookup at h
  cases hf : m.reverse.find? (fun p => p.1 == k) with
  | none => rw [hf] at h; exact absurd h (by simp)
  | some p =>
    rw [hf] at h
    have hp1 : p.1 = k := by simpa using List.find?_some hf
    have hpmem : p ∈ m := List.mem_reverse.mp (List.mem_of_find?_eq_some hf)
    exact ⟨p, hpmem, hp1, by simpa using h⟩

/-- The submit-id-to-tx-id map built by `update_tx_statuses`. -/
theorem txmap_keys (rows : List TransactionInfo) :
    ((rows.map (fun r => (r.submit_id.getD "", r.tx_id))).map Prod.fst)
      = rows.map (fun r => r.submit_id.getD "") := by
  simp [List.map_map, Function.comp_def]

theorem txmap_lookup_self (rows : List TransactionInfo)
    (hsid : (rows.map (fun r => r.submit_id.getD "")).Nodup)
    (r : TransactionInfo) (hr : r ∈ rows) :
    mapLookup (rows.map (fun r => (r.submit_id.getD "", r.tx_id)))
        (r.submit_id.getD "") = some r.tx_id := by
  have hkeys : ((rows.map (fun r => (r.submit_id.getD "", r.tx_id))).map Prod.fst).Nodup := by
    rw [txmap_keys]; exact hsid
  rw [mapLookup_nodup _ hkeys, List.find?_map]
  have hex : (rows.find? ((fun p => p.1 == r.submit_id.getD "") ∘
      (fun r' => (r'.submit_id.getD "", r'.tx_id)))).isSome := by
    rw [List.find?_isSome]
    exact ⟨r, hr, by simp [Function.comp_def]⟩
  obtain ⟨r2, hr2⟩ := Option.isSome_iff_exists.mp hex
  have hr2mem : r2 ∈ rows := List.mem_of_find?_eq_some hr2
  have hr2key : r2.submit_id.getD "" = r.submit_id.getD "" := by
    have := List.find?_some hr2
    simpa [Function.comp_def] using this
  have hr2eq : r2 = r := List.inj_on_of_nodup_map hsid hr2mem hr hr2key
  rw [hr2, hr2eq]
  rfl

theorem txmap_lookup_inv (rows : List TransactionInfo) (k tid : String)
    (h : mapLookup (rows.map (fun r => (r.submit_id.getD "", r.tx_id))) k = some tid) :
    ∃ r ∈ rows, r.submit_id.getD "" = k ∧ r.tx_id = tid := by
  obtain ⟨p, hp, hp1, hp2⟩ := mapLookup_mem _ k tid h
  obtain ⟨r, hrmem, hrp⟩ := List.mem_map.mp hp
  refine ⟨r, hrmem, ?_, ?_⟩
  · rw [← hp1, ← hrp]
  · rw [← hp2, ← hrp]

theorem txmap_inj (rows : List TransactionInfo)
    (htid : (rows.map TransactionInfo.tx_id).Nodup)
    (r0 : TransactionInfo) (hr0 : r0 ∈ rows) :
    ∀ k tid, mapLookup (rows.map (fun r => (r.submit_id.getD "", r.tx_id))) k = some tid →
      tid = r0.tx_id → k = r0.submit_id.getD "" := by
  intro k tid hlk hteq
  obtain ⟨r, hrmem, hrk, hrt⟩ := txmap_lookup_inv rows k tid hlk
  have : r = r0 := List.inj_on_of_nodup_map htid hrmem hr0 (by rw [hrt, hteq])
  rw [← hrk, this]

theorem collectRows_isSome (s : RedbState) (l : List String)
    (rows : List TransactionInfo) (h : collectRows s l = Except.ok rows) :
    ∀ id ∈ l, (s.txInfo id).isSome := by
  induction l generalizing rows with
  | nil => simp
  | cons id rest ih =>
    rw [collectRows] at h
    cases hv : s.txInfo id with
    | none => rw [hv] at h; exact absurd h (by simp)
    | some v =>
      rw [hv] at h
      cases hr : collectRows s rest with
      | error e => rw [hr] at h; exact absurd h (by simp)
      | ok rs =>
        intro j hj
        rcases List.mem_cons.mp hj with hj | hj
        · subst hj; simp [hv]
        · exact ih rs hr j hj

theorem collectRows_ok_of_isSome (s : RedbState) (l : List String)
    (h : ∀ id ∈ l, (s.txInfo id).isSome) :
    ∃ rows, collectRows s l = Except.ok rows := by
  induction l with
  | nil => exact ⟨[], rfl⟩
  | cons id rest ih =>
    obtain ⟨v, hv⟩ := Option.isSome_iff_exists.mp (h id (by simp))
    obtain ⟨rs, hrs⟩ := ih (fun j hj => h j (by simp [hj]))
    exact ⟨rowOfVal id v :: rs, by rw [collectRows, hv, hrs]; rfl⟩

theorem collectRows_mem_row (s : RedbState) (l : List String)
    (rows : List TransactionInfo) (h : collectRows s l = Except.ok rows) :
    ∀ r ∈ rows, ∃ v, s.txInfo r.tx_id = some v ∧ r = rowOfVal r.tx_id v := by
  induction l generalizing rows with
  | nil =>
    rw [collectRows] at h
    simp only [Except.ok.injEq] at h
    subst h
    simp
  | cons id rest ih =>
    rw [collectRows] at h
    cases hv : s.txInfo id with
    | none => rw [hv] at h; exact absurd h (by simp)
    | some v =>
      rw [hv] at h
      cases hr : collectRows s rest with
      | error e => rw [hr] at h; exact absurd h (by simp)
      | ok rs =>
        rw [hr] at h
        simp only [Except.ok.injEq] at h
        subst h
        intro r hrmem
        rcases List.mem_cons.mp hrmem with hrm | hrm
        · subst hrm
          exact ⟨v, hv, rfl⟩
        · exact ih rs hr r hrm

theorem collectRows_row_mem (s : RedbState) (l : List String)
    (rows : List TransactionInfo) (h : collectRows s l = Except.ok rows)
    (id : String) (hid : id ∈ l) (v : TxInfoVal) (hv : s.txInfo id = some v) :
    rowOfVal id v ∈ rows := by
  induction l generalizing rows with
  | nil => simp at hid
  | cons j rest ih =>
    rw [collectRows] at h
    cases hj : s.txInfo j with
    | none => rw [hj] at h; exact absurd h (by simp)
    | some w =>
      rw [hj] at h
      cases hr : collectRows s rest with
      | error e => rw [hr] at h; exact absurd h (by simp)
      | ok rs =>
        rw [hr] at h
        simp only [Except.ok.injEq] at h
        subst h
        rcases List.mem_cons.mp hid with hh | hh
        · subst hh
          have hw : w = v := by rw [hj] at hv; exact (Option.some.injEq _ _).mp hv
          subst hw
          exact List.mem_cons_self _ _
        · exact List.mem_cons_of_mem _ (ih rs hr hh)

theorem collectRows_map_txid (s : RedbState) (l : List String)
    (rows : List TransactionInfo) (h : collectRows s l = Except.ok rows) :
    rows.map TransactionInfo.tx_id = l := by
  induction l generalizing rows with
  | nil =>
    rw [collectRows] at h
    simp only [Except.ok.injEq] at h
    subst h
    rfl
  | cons id rest ih =>
    rw [collectRows] at h
    cases hv : s.txInfo id with
    | none => rw [hv] at h; exact absurd h (by simp)
    | some v =>
      rw [hv] at h
      cases hr : collectRows s rest with
      | error e => rw [hr] at h; exact absurd h (by simp)
      | ok rs =>
        rw [hr] at h
        simp only [Except.ok.injEq] at h
        subst h
        simp [ih rs hr]

theorem get_txs_ok_elim (s : RedbState) (f : Nat) (rows : List TransactionInfo)
    (h : s.get_txs f = Except.ok rows) :
    ∃ rows0, collectRows s (s.fileTxs f) = Except.ok rows0
      ∧ rows = List.insertionSort (fun a b => a.order ≤ b.order) rows0
      ∧ (lookupA s.files f).isSome := by
  rw [RedbState.get_txs] at h
  cases hl : lookupA s.files f with
  | none => rw [hl] at h; exact absurd h (by simp)
  | some n =>
    rw [hl] at h
    cases hc : collectRows s (s.fileTxs f) with
    | error e => rw [hc] at h; exact absurd h (by simp)
    | ok rows0 =>
      rw [hc] at h
      simp only [Except.ok.injEq] at h
      exact ⟨rows0, rfl, h.symm, by simp⟩

theorem get_txs_ok_of (s : RedbState) (f : Nat)
    (hfile : (lookupA s.files f).isSome)
    (h : ∀ id ∈ s.fileTxs f, (s.txInfo id).isSome) :
    ∃ rows0, collectRows s (s.fileTxs f) = Except.ok rows0
      ∧ s.get_txs f
        = Except.ok (List.insertionSort (fun a b => a.order ≤ b.order) rows0) := by
  obtain ⟨n, hn⟩ := Option.isSome_iff_exists.mp hfile
  obtain ⟨rows0, hrows0⟩ := collectRows_ok_of_isSome s _ h
  exact ⟨rows0, hrows0, by rw [RedbState.get_txs, hn, hrows0]⟩

theorem pollFold_ok (tx_map : List (String × String)) :
    ∀ (poll : List (String × String)) (st : RedbState),
      (∀ e ∈ poll, (mapLookup tx_map e.1).isSome) →
      ∃ st2, pollFold tx_map st poll = Except.ok st2
        ∧ st2.files = st.files ∧ st2.fileTxs = st.fileTxs ∧ st2.txBytes = st.txBytes
        ∧ (∀ id, (st2.txInfo id).map TxInfoVal.order = (st.txInfo id).map TxInfoVal.order)
        ∧ (∀ id, (st2.txInfo id).isSome = (st.txInfo id).isSome)
        ∧ (∀ id, (∀ e ∈ poll, mapLookup tx_map e.1 ≠ some id) →
            st2.txInfo id = st.txInfo id) := by
  intro poll
  induction poll with
  | nil =>
    intro st _
    exact ⟨st, rfl, rfl, rfl, rfl, fun _ => rfl, fun _ => rfl, fun _ _ => rfl⟩
  | cons e rest ih =>
    intro st h
    obtain ⟨tid, htid⟩ := Option.isSome_iff_exists.mp (h e (by simp))
    have hrest : ∀ e2 ∈ rest, (mapLookup tx_map e2.1).isSome :=
      fun e2 he2 => h e2 (by simp [he2])
    cases hv : st.txInfo tid with
    | none =>
      have herr := update_tx_err st tid (some e.1)
        (some (normalize (TransactionStatus.ofStr e.2))) hv
      obtain ⟨st2, hfold, hfi, hft, hby, hor, hso, hun⟩ := ih st hrest
      refine ⟨st2, ?_, hfi, hft, hby, hor, hso, ?_⟩
      · rw [pollFold]
        simp only [htid, herr]
        exact hfold
      · intro id hid
        exact hun id (fun e2 he2 => hid e2 (by simp [he2]))
    | some v =>
      have hok := update_tx_ok st tid (some e.1)
        (some (normalize (TransactionStatus.ofStr e.2))) v hv
      set st1 : RedbState :=
        { st with txInfo := fun id =>
            if id = tid then
              some { order := v.order,
                     submit_id := (some e.1).getD v.submit_id,
                     status := ((some (normalize (TransactionStatus.ofStr e.2))).map
                       TransactionStatus.toStr).getD v.status }
            else st.txInfo id } with hst1
      obtain ⟨st2, hfold, hfi, hft, hby, hor, hso, hun⟩ := ih st1 hrest
      refine ⟨st2, ?_, hfi, hft, hby, ?_, ?_, ?_⟩
      · rw [pollFold]
        simp only [htid, hok]
        exact hfold
      · intro id
        rw [hor id]
        by_cases hid : id = tid
        · subst hid
          simp [hst1, hv]
        · simp [hst1, if_neg hid]
      · intro id
        rw [hso id]
        by_cases hid : id = tid
        · subst hid
          simp [hst1, hv]
        · simp [hst1, if_neg hid]
      · intro id hid
        have hne : id ≠ tid := by
          intro heq
          exact hid e (by simp) (by rw [htid, heq])
        rw [hun id (fun e2 he2 => hid e2 (by simp [he2]))]
        simp [hst1, if_neg hne]

theorem pollFold_target (tx_map : List (String × String)) (k0 tid0 : String)
    (hk0 : mapLookup tx_map k0 = some tid0)
    (hinj : ∀ k tid, mapLookup tx_map k = some tid → tid = tid0 → k = k0) :
    ∀ (poll : List (String × String)) (st : RedbState) (v0 : TxInfoVal) (str0 : String),
      (k0, str0) ∈ poll →
      (poll.map Prod.fst).Nodup →
      (∀ e ∈ poll, (mapLookup tx_map e.1).isSome) →
      st.txInfo tid0 = some v0 →
      ∃ st2, pollFold tx_map st poll = Except.ok st2
        ∧ st2.txInfo tid0 = some { order := v0.order, submit_id := k0,
                                   status := (normalize (TransactionStatus.ofStr str0)).toStr } := by
  intro poll
  induction poll with
  | nil =>
    intro st v0 str0 hmem
    simp at hmem
  | cons e rest ih =>
    intro st v0 str0 hmem hnd hall hv0
    have hrest : ∀ e2 ∈ rest, (mapLookup tx_map e2.1).isSome :=
      fun e2 he2 => hall e2 (by simp [he2])
    rcases List.mem_cons.mp hmem with heq | hmem2
    · -- this entry is the target
      have he1 : e.1 = k0 := by rw [← heq]
      have he2 : e.2 = str0 := by rw [← heq]
      have hok := update_tx_ok st tid0 (some e.1)
        (some (normalize (TransactionStatus.ofStr e.2))) v0 hv0
      set st1 : RedbState :=
        { st with txInfo := fun id =>
            if id = tid0 then
              some { order := v0.order,
                     submit_id := (some e.1).getD v0.submit_id,
                     status := ((some (normalize (TransactionStatus.ofStr e.2))).map
                       TransactionStatus.toStr).getD v0.status }
            else st.txInfo id } with hst1
      have hnotid : ∀ e2 ∈ rest, mapLookup tx_map e2.1 ≠ some tid0 := by
        intro e2 he2 hlk
        have hke2 : e2.1 = k0 := hinj e2.1 tid0 hlk rfl
        have hnotin := (List.nodup_cons.mp hnd).1
        apply hnotin
        rw [he1, ← hke2]
        exact List.mem_map.mpr ⟨e2, he2, rfl⟩
      obtain ⟨st2, hfold, _, _, _, _, _, hun⟩ := pollFold_ok tx_map rest st1 hrest
      have hlk : mapLookup tx_map e.1 = some tid0 := by rw [he1]; exact hk0
      refine ⟨st2, ?_, ?_⟩
      · rw [pollFold]
        simp only [hlk, hok]
        exact hfold
      · rw [hun tid0 hnotid]
        simp [hst1, he1, he2]
    · -- some other entry first
      have hke : e.1 ≠ k0 := by
        intro hkeq
        have hk0mem : k0 ∈ rest.map Prod.fst :=
          List.mem_map.mpr ⟨(k0, str0), hmem2, rfl⟩
        have hnotin := (List.nodup_cons.mp hnd).1
        rw [hkeq] at hnotin
        exact hnotin hk0mem
      obtain ⟨tid, htid⟩ := Option.isSome_iff_exists.mp (hall e (by simp))
      have htidne : tid ≠ tid0 := fun hteq => hke (hinj e.1 tid htid hteq)
      have hndr : (rest.map Prod.fst).Nodup := (List.nodup_cons.mp hnd).2
      cases hv : st.txInfo tid with
      | none =>
        have herr := update_tx_err st tid (some e.1)
          (some (normalize (TransactionStatus.ofStr e.2))) hv
        obtain ⟨st2, hfold, hres⟩ := ih st v0 str0 hmem2 hndr hrest hv0
        refine ⟨st2, ?_, hres⟩
        rw [pollFold]
        simp only [htid, herr]
        exact hfold
      | some v =>
        have hok := update_tx_ok st tid (some e.1)
          (some (normalize (TransactionStatus.ofStr e.2))) v hv
        set st1 : RedbState :=
          { st with txInfo := fun id =>
              if id = tid then
                some { order := v.order,
                       submit_id := (some e.1).getD v.submit_id,
                       status := ((some (normalize (TransactionStatus.ofStr e.2))).map
                         TransactionStatus.toStr).getD v.status }
              else st.txInfo id } with hst1
        have hv0b : st1.txInfo tid0 = some v0 := by
          simp only [hst1]
          rw [if_neg (fun h => htidne h.symm)]
          exact hv0
        obtain ⟨st2, hfold, hres⟩ := ih st1 v0 str0 hmem2 hndr hrest hv0b
        refine ⟨st2, ?_, hres⟩
        rw [pollFold]
        simp only [htid, hok]
        exact hfold

theorem wait_pass_main (σ : String → String) :
    ∀ (rows : List TransactionInfo) (s : RedbState),
      (rows.map TransactionInfo.tx_id).Nodup →
      (∀ r ∈ rows, (s.txBytes r.tx_id).isSome) →
      (∀ r ∈ rows, (s.txInfo r.tx_id).isSome) →
      ∃ s2 resubs unc, wait_pass σ s rows = Except.ok (s2, resubs, unc)
        ∧ (∀ r ∈ rows, r.status = TransactionStatus.Local →
            r.tx_id ∈ resubs
            ∧ (s2.txInfo r.tx_id).map TxInfoVal.submit_id = some (σ r.tx_id))
        ∧ (∀ id ∈ resubs, ∃ r ∈ rows, r.tx_id = id ∧ r.status = TransactionStatus.Local)
        ∧ (∀ id, id ∉ rows.map TransactionInfo.tx_id → s2.txInfo id = s.txInfo id) := by
  intro rows
  induction rows with
  | nil =>
    intro s _ _ _
    exact ⟨s, [], 0, rfl, by simp, by simp, fun _ _ => rfl⟩
  | cons r rest ih =>
    intro s hnd hby hin
    have hnd2 : (r.tx_id :: rest.map TransactionInfo.tx_id).Nodup := by simpa using hnd
    have hndr : (rest.map TransactionInfo.tx_id).Nodup := (List.nodup_cons.mp hnd2).2
    have hnotin : r.tx_id ∉ rest.map TransactionInfo.tx_id := (List.nodup_cons.mp hnd2).1
    by_cases hst : r.status = TransactionStatus.Local
    · obtain ⟨tb, htb⟩ := Option.isSome_iff_exists.mp (hby r (by simp))
      obtain ⟨v, hv⟩ := Option.isSome_iff_exists.mp (hin r (by simp))
      have hok := update_tx_ok s r.tx_id (some (σ r.tx_id)) none v hv
      set s1 : RedbState :=
        { s with txInfo := fun id =>
            if id = r.tx_id then
              some { order := v.order, submit_id := (some (σ r.tx_id)).getD v.submit_id,
                     status := ((none : Option TransactionStatus).map
                       TransactionStatus.toStr).getD v.status }
            else s.txInfo id } with hs1
      have hby1 : ∀ r2 ∈ rest, (s1.txBytes r2.tx_id).isSome :=
        fun r2 h2 => hby r2 (by simp [h2])
      have hin1 : ∀ r2 ∈ rest, (s1.txInfo r2.tx_id).isSome := by
        intro r2 h2
        simp only [hs1]
        by_cases hid : r2.tx_id = r.tx_id
        · simp [hid]
        · rw [if_neg hid]
          exact hin r2 (by simp [h2])
      obtain ⟨s2, resubs, unc, hpass, hloc, horig, hfr⟩ := ih s1 hndr hby1 hin1
      refine ⟨s2, r.tx_id :: resubs, (if r.status = TransactionStatus.Committed
        then 0 else 1) + unc, ?_, ?_, ?_, ?_⟩
      · rw [wait_pass, if_pos hst]
        simp only [htb, hok, hpass]
      · intro r2 h2 hst2
        rcases List.mem_cons.mp h2 with h2 | h2
        · subst h2
          refine ⟨by simp, ?_⟩
          rw [hfr r2.tx_id hnotin]
          simp [hs1]
        · obtain ⟨hmem, hsub⟩ := hloc r2 h2 hst2
          exact ⟨by simp [hmem], hsub⟩
      · intro id hid
        rcases List.mem_cons.mp hid with hid | hid
        · exact ⟨r, by simp, hid.symm, hst⟩
        · obtain ⟨r2, h2, h3, h4⟩ := horig id hid
          exact ⟨r2, by simp [h2], h3, h4⟩
      · intro id hid
        have hid1 : id ∉ rest.map TransactionInfo.tx_id := fun h => hid (by simp [h])
        have hidr : id ≠ r.tx_id := fun h => hid (by simp [h])
        rw [hfr id hid1]
        simp [hs1, if_neg hidr]
    · obtain ⟨s2, resubs, unc, hpass, hloc, horig, hfr⟩ := ih s hndr
        (fun r2 h2 => hby r2 (by simp [h2])) (fun r2 h2 => hin r2 (by simp [h2]))
      refine ⟨s2, resubs, (if r.status = TransactionStatus.Committed
        then 0 else 1) + unc, ?_, ?_, ?_, ?_⟩
      · rw [wait_pass, if_neg hst]
        simp only [hpass]
      · intro r2 h2 hst2
        rcases List.mem_cons.mp h2 with h2 | h2
        · subst h2
          exact absurd hst2 hst
        · exact hloc r2 h2 hst2
      · intro id hid
        obtain ⟨r2, h2, h3, h4⟩ := horig id hid
        exact ⟨r2, by simp [h2], h3, h4⟩
      · intro id hid
        exact hfr id (fun h => hid (by simp [h]))

/-- The behavior of one wait iteration at a polled entry: the shared core of
the `UNKNOWN` and `INVALID_STATUS` claims. `rows` are the file's rows before
the poll, `r0` one of them, and `(r0.submit_id, str0)` an entry of the poll
response. -/
theorem wait_poll_entry
    (s : RedbState) (f : Nat) (poll : List (String × String)) (σ : String → String)
    (rows : List TransactionInfo) (r0 : TransactionInfo) (str0 : String)
    (hrows : s.get_txs f = Except.ok rows)
    (hsub : ∀ r ∈ rows, r.submit_id.isSome)
    (htid : (rows.map TransactionInfo.tx_id).Nodup)
    (hsid : (rows.map (fun r => r.submit_id.getD "")).Nodup)
    (hbytes : ∀ id ∈ s.fileTxs f, (s.txBytes id).isSome)
    (hkeys : ∀ e ∈ poll, e.1 ∈ rows.map (fun r => r.submit_id.getD ""))
    (hpnd : (poll.map Prod.fst).Nodup)
    (hr0 : r0 ∈ rows)
    (he0 : (r0.submit_id.getD "", str0) ∈ poll) :
    ∃ s1 rows1 s2 resubs unc,
      update_tx_statuses s f poll = Except.ok s1
      ∧ s1.txInfo r0.tx_id
          = some { order := r0.order, submit_id := r0.submit_id.getD "",
                   status := (normalize (TransactionStatus.ofStr str0)).toStr }
      ∧ s1.get_txs f = Except.ok rows1
      ∧ rowOfVal r0.tx_id
          { order := r0.order, submit_id := r0.submit_id.getD "",
            status := (normalize (TransactionStatus.ofStr str0)).toStr } ∈ rows1
      ∧ (rows1.map TransactionInfo.tx_id).Nodup
      ∧ wait_pass σ s1 rows1 = Except.ok (s2, resubs, unc)
      ∧ wait_iteration σ s f poll = Except.ok (s2, resubs, unc)
      ∧ (∀ r ∈ rows1, r.status = TransactionStatus.Local →
          r.tx_id ∈ resubs
          ∧ (s2.txInfo r.tx_id).map TxInfoVal.submit_id = some (σ r.tx_id))
      ∧ (∀ id ∈ resubs, ∃ r ∈ rows1, r.tx_id = id ∧ r.status = TransactionStatus.Local) := by
  obtain ⟨rows0, hcoll, hsort, hfile⟩ := get_txs_ok_elim s f rows hrows
  have hperm : rows.Perm rows0 := by
    rw [hsort]
    exact List.perm_insertionSort _ rows0
  have hmem0 : r0 ∈ rows0 := hperm.mem_iff.mp hr0
  obtain ⟨v0, hv0, hrow0⟩ := collectRows_mem_row s _ rows0 hcoll r0 hmem0
  have hord : v0.order = r0.order := by rw [hrow0]; rfl
  have hsubne : v0.submit_id ≠ "" := by
    intro h0
    have hs := hsub r0 hr0
    rw [hrow0] at hs
    simp [rowOfVal, h0] at hs
  have hk0v : r0.submit_id.getD "" = v0.submit_id := by
    conv_lhs => rw [hrow0]
    simp [rowOfVal, hsubne]
  have hk0 : mapLookup (rows.map (fun r => (r.submit_id.getD "", r.tx_id)))
      (r0.submit_id.getD "") = some r0.tx_id := txmap_lookup_self rows hsid r0 hr0
  have hinj := txmap_inj rows htid r0 hr0
  have hall : ∀ e ∈ poll,
      (mapLookup (rows.map (fun r => (r.submit_id.getD "", r.tx_id))) e.1).isSome := by
    intro e he
    rcases List.mem_map.mp (hkeys e he) with ⟨r, hrm, hre⟩
    rw [← hre, txmap_lookup_self rows hsid r hrm]
    rfl
  obtain ⟨s1a, hfoldT, hs1tx⟩ := pollFold_target _ _ _ hk0 hinj poll s v0 str0 he0 hpnd hall hv0
  obtain ⟨s1b, hfoldO, hfi, hft, hbyE, _, hso, _⟩ := pollFold_ok _ poll s hall
  have hs1eq : s1b = s1a := by
    have h := hfoldO.symm.trans hfoldT
    simpa using h
  subst hs1eq
  have hany : rows.any (fun r => r.submit_id.isNone) = false := by
    rw [List.any_eq_false]
    intro r hr
    have := hsub r hr
    cases hx : r.submit_id with
    | none => rw [hx] at this; exact absurd this (by simp)
    | some y => simp [hx]
  have hupd : update_tx_statuses s f poll = Except.ok s1b := by
    rw [update_tx_statuses, hrows]
    simp only [hany, Bool.false_eq_true, if_false]
    exact hfoldT
  have hnewv : s1b.txInfo r0.tx_id
      = some { order := r0.order, submit_id := r0.submit_id.getD "",
               status := (normalize (TransactionStatus.ofStr str0)).toStr } := by
    rw [hs1tx, hord, hk0v]
  have hmap0 := collectRows_map_txid s _ rows0 hcoll
  have hidmem : r0.tx_id ∈ s.fileTxs f := by
    rw [← hmap0]
    exact List.mem_map.mpr ⟨r0, hmem0, rfl⟩
  have hfile1 : (lookupA s1b.files f).isSome := by rw [hfi]; exact hfile
  have hin1 : ∀ id ∈ s1b.fileTxs f, (s1b.txInfo id).isSome := by
    intro id hid
    rw [hft] at hid
    rw [hso id]
    exact collectRows_isSome s _ rows0 hcoll id hid
  obtain ⟨rows1x, hcoll1, hgt1⟩ := get_txs_ok_of s1b f hfile1 hin1
  have hperm1 : (List.insertionSort (fun a b => a.order ≤ b.order) rows1x).Perm rows1x :=
    List.perm_insertionSort _ rows1x
  have hmap1 := collectRows_map_txid s1b _ rows1x hcoll1
  have hrowmem : rowOfVal r0.tx_id
      { order := r0.order, submit_id := r0.submit_id.getD "",
        status := (normalize (TransactionStatus.ofStr str0)).toStr }
      ∈ List.insertionSort (fun a b => a.order ≤ b.order) rows1x := by
    rw [List.Perm.mem_iff hperm1]
    exact collectRows_row_mem s1b _ rows1x hcoll1 r0.tx_id (by rw [hft]; exact hidmem)
      _ hnewv
  have hftnodup : (s.fileTxs f).Nodup := by
    rw [← hmap0]
    exact ((hperm.map TransactionInfo.tx_id).nodup_iff).mp htid
  have hnod1 : ((List.insertionSort (fun a b => a.order ≤ b.order) rows1x).map
      TransactionInfo.tx_id).Nodup := by
    rw [(hperm1.map TransactionInfo.tx_id).nodup_iff]
    rw [hmap1, hft]
    exact hftnodup
  have hmemid1 : ∀ r ∈ List.insertionSort (fun a b => a.order ≤ b.order) rows1x,
      r.tx_id ∈ s.fileTxs f := by
    intro r hrm
    have hr' : r ∈ rows1x := (List.Perm.mem_iff hperm1).mp hrm
    rw [← hft, ← hmap1]
    exact List.mem_map.mpr ⟨r, hr', rfl⟩
  have hby1 : ∀ r ∈ List.insertionSort (fun a b => a.order ≤ b.order) rows1x,
      (s1b.txBytes r.tx_id).isSome := by
    intro r hrm
    rw [hbyE]
    exact hbytes _ (hmemid1 r hrm)
  have hin1r : ∀ r ∈ List.insertionSort (fun a b => a.order ≤ b.order) rows1x,
      (s1b.txInfo r.tx_id).isSome := by
    intro r hrm
    exact hin1 _ (by rw [hft]; exact hmemid1 r hrm)
  obtain ⟨s2, resubs, unc, hpass, hloc, horig, _⟩ :=
    wait_pass_main σ _ s1b hnod1 hby1 hin1r
  have hiter : wait_iteration σ s f poll = Except.ok (s2, resubs, unc) := by
    rw [wait_iteration]
    simp only [hupd, hgt1, hpass]
  exact ⟨s1b, _, s2, resubs, unc, hupd, hnewv, hgt1, hrowmem, hnod1, hpass, hiter,
    hloc, horig⟩

/-- C5. In the wait phase, when the bulk status poll returns `UNKNOWN` for a
transaction, the row's status is stored as `Local` (`"LOCAL"` in the
`tx_info` table), and a transaction whose status is `Local` is resubmitted
in the same wait iteration: its bytes are POSTed again (it appears in the
resubmission list, whose entries are exactly the rows that went through
`submit_transaction`) and its stored submit id is updated to the newly
returned one. Hypotheses: the rows of the file all have submit ids and are
pairwise distinct (as the driver guarantees after `send`), and the poll
response covers known submit ids without duplicates. -/
theorem wait_unknown_resubmitted
    (s : RedbState) (f : Nat) (poll : List (String × String)) (σ : String → String)
    (rows : List TransactionInfo) (r0 : TransactionInfo)
    (hrows : s.get_txs f = Except.ok rows)
    (hsub : ∀ r ∈ rows, r.submit_id.isSome)
    (htid : (rows.map TransactionInfo.tx_id).Nodup)
    (hsid : (rows.map (fun r => r.submit_id.getD "")).Nodup)
    (hbytes : ∀ id ∈ s.fileTxs f, (s.txBytes id).isSome)
    (hkeys : ∀ e ∈ poll, e.1 ∈ rows.map (fun r => r.submit_id.getD ""))
    (hpnd : (poll.map Prod.fst).Nodup)
    (hr0 : r0 ∈ rows)
    (he0 : (r0.submit_id.getD "", "UNKNOWN") ∈ poll) :
    ∃ s1 s2 resubs unc,
      update_tx_statuses s f poll = Except.ok s1
      ∧ s1.txInfo r0.tx_id
          = some { order := r0.order, submit_id := r0.submit_id.getD "",
                   status := TransactionStatus.Local.toStr }
      ∧ wait_iteration σ s f poll = Except.ok (s2, resubs, unc)
      ∧ r0.tx_id ∈ resubs
      ∧ (s2.txInfo r0.tx_id).map TxInfoVal.submit_id = some (σ r0.tx_id) := by
  obtain ⟨s1, rows1, s2, resubs, unc, hupd, hs1, _, hrowmem, _, _, hiter, hloc, _⟩ :=
    wait_poll_entry s f poll σ rows r0 "UNKNOWN" hrows hsub htid hsid hbytes hkeys
      hpnd hr0 he0
  have hstat : (normalize (TransactionStatus.ofStr "UNKNOWN")).toStr
      = TransactionStatus.Local.toStr := rfl
  rw [hstat] at hs1 hrowmem
  obtain ⟨hmem, hsubupd⟩ := hloc _ hrowmem rfl
  exact ⟨s1, s2, resubs, unc, hupd, hs1, hiter, hmem, hsubupd⟩

/-- C5 witness: a concrete two-row store polled with `UNKNOWN` for row `a`. -/
theorem wait_unknown_resubmitted_witness :
    ∃ s1 s2 resubs unc,
      update_tx_statuses s45 0 [("S", "UNKNOWN")] = Except.ok s1
      ∧ s1.txInfo "a" = some { order := 0, submit_id := "S",
                               status := TransactionStatus.Local.toStr }
      ∧ wait_iteration sigmaW s45 0 [("S", "UNKNOWN")] = Except.ok (s2, resubs, unc)
      ∧ "a" ∈ resubs
      ∧ (s2.txInfo "a").map TxInfoVal.submit_id = some (sigmaW "a") :=
  wait_unknown_resubmitted s45 0 [("S", "UNKNOWN")] sigmaW
    [{ order := 0, tx_id := "a", submit_id := some "S",
       status := TransactionStatus.Queued },
     { order := 1, tx_id := "b", submit_id := some "T",
       status := TransactionStatus.Queued }]
    { order := 0, tx_id := "a", submit_id := some "S",
      status := TransactionStatus.Queued }
    rfl (by decide) (by decide) (by decide) (by decide) (by decide) (by decide)
    (by decide) (by decide)

/-- C4 (amended). In the wait phase, only `UNKNOWN` is normalized to
`Local`: when the bulk status poll returns `InvalidStatus` for a
transaction — including any status string that does not name a known
status — the row's status is stored as `InvalidStatus` (not `Local`), and
that transaction is NOT resubmitted in the iteration (it never reaches
`submit_transaction`). -/
theorem wait_invalid_not_resubmitted
    (s : RedbState) (f : Nat) (poll : List (String × String)) (σ : String → String)
    (rows : List TransactionInfo) (r0 : TransactionInfo) (str0 : String)
    (hrows : s.get_txs f = Except.ok rows)
    (hsub : ∀ r ∈ rows, r.submit_id.isSome)
    (htid : (rows.map TransactionInfo.tx_id).Nodup)
    (hsid : (rows.map (fun r => r.submit_id.getD "")).Nodup)
    (hbytes : ∀ id ∈ s.fileTxs f, (s.txBytes id).isSome)
    (hkeys : ∀ e ∈ poll, e.1 ∈ rows.map (fun r => r.submit_id.getD ""))
    (hpnd : (poll.map Prod.fst).Nodup)
    (hr0 : r0 ∈ rows)
    (hinv : TransactionStatus.ofStr str0 = TransactionStatus.InvalidStatus)
    (he0 : (r0.submit_id.getD "", str0) ∈ poll) :
    ∃ s1 s2 resubs unc,
      update_tx_statuses s f poll = Except.ok s1
      ∧ s1.txInfo r0.tx_id
          = some { order := r0.order, submit_id := r0.submit_id.getD "",
                   status := TransactionStatus.InvalidStatus.toStr }
      ∧ wait_iteration σ s f poll = Except.ok (s2, resubs, unc)
      ∧ r0.tx_id ∉ resubs := by
  obtain ⟨s1, rows1, s2, resubs, unc, hupd, hs1, _, hrowmem, hnod, _, hiter, _, horig⟩ :=
    wait_poll_entry s f poll σ rows r0 str0 hrows hsub htid hsid hbytes hkeys
      hpnd hr0 he0
  have hstat : (normalize (TransactionStatus.ofStr str0)).toStr
      = TransactionStatus.InvalidStatus.toStr := by rw [hinv]; rfl
  rw [hstat] at hs1 hrowmem
  refine ⟨s1, s2, resubs, unc, hupd, hs1, hiter, ?_⟩
  intro hmem
  obtain ⟨r1, hr1mem, hr1id, hr1st⟩ := horig r0.tx_id hmem
  have hideq : r1.tx_id = (rowOfVal r0.tx_id
      { order := r0.order, submit_id := r0.submit_id.getD "",
        status := TransactionStatus.InvalidStatus.toStr }).tx_id := hr1id
  have hr1eq : r1 = rowOfVal r0.tx_id
      { order := r0.order, submit_id := r0.submit_id.getD "",
        status := TransactionStatus.InvalidStatus.toStr } :=
    List.inj_on_of_nodup_map hnod hr1mem hrowmem hideq
  rw [hr1eq] at hr1st
  have hfalse : TransactionStatus.InvalidStatus = TransactionStatus.Local := hr1st
  exact absurd hfalse (by decide)

/-- C4 witness: a concrete two-row store polled with the unrecognized string
`"BOGUS"` for row `a`: the row is stored as `INVALID_STATUS` and `a` is not
resubmitted. -/
theorem wait_invalid_not_resubmitted_witness :
    ∃ s1 s2 resubs unc,
      update_tx_statuses s45 0 [("S", "BOGUS")] = Except.ok s1
      ∧ s1.txInfo "a" = some { order := 0, submit_id := "S",
                               status := TransactionStatus.InvalidStatus.toStr }
      ∧ wait_iteration sigmaW s45 0 [("S", "BOGUS")] = Except.ok (s2, resubs, unc)
      ∧ "a" ∉ resubs :=
  wait_invalid_not_resubmitted s45 0 [("S", "BOGUS")] sigmaW
    [{ order := 0, tx_id := "a", submit_id := some "S",
       status := TransactionStatus.Queued },
     { order := 1, tx_id := "b", submit_id := some "T",
       status := TransactionStatus.Queued }]
    { order := 0, tx_id := "a", submit_id := some "S",
      status := TransactionStatus.Queued }
    ("BOGUS")
    rfl (by decide) (by decide) (by decide) (by decide) (by decide) (by decide)
    (by decide) (by decide) (by decide)

/-- C4 counterexample: after polling the unrecognized status `"BOGUS"` for
row `a`, the stored status is `INVALID_STATUS`, not `LOCAL`, and the wait
iteration resubmits nothing — the claim's normalize-to-Local-and-resubmit
behavior does not happen. -/
theorem wait_invalid_status_cex :
    (s4c1.txInfo "a").map TxInfoVal.status = some TransactionStatus.InvalidStatus.toStr
    ∧ TransactionStatus.InvalidStatus.toStr ≠ TransactionStatus.Local.toStr
    ∧ (exOk (wait_iteration sigmaW s45 0 [("S", "BOGUS")]) (s45, [], 0)).2.1 = [] :=
  ⟨rfl, by decide, rfl⟩

/-- C8 (amended). `update_tx` changes only the supplied fields of the
addressed row: `order` is never changed, a call supplying only `status`
leaves `submit_id` unchanged, a call supplying only `submit_id` leaves
`status` unchanged, and no other row is touched. A non-empty stored
`submit_id` stays non-empty through `update_tx` provided the call does not
supply the empty string (the redb backend encodes an absent submit id as
`""`), and through `add_tx` provided the added transaction's header
signature differs from the row's id — the claim's stronger "no store
operation other than flush_txs ever returns it to null" fails on `add_tx`
with the same header signature, which rewrites the row; see the
counterexample. -/
theorem update_tx_field_effects (s : RedbState) (tx_id : String) (sub : Option String)
    (st : Option TransactionStatus) (s2 : RedbState)
    (h : s.update_tx tx_id sub st = Except.ok s2) :
    (∀ id, (s2.txInfo id).map TxInfoVal.order = (s.txInfo id).map TxInfoVal.order)
    ∧ (∀ id, id ≠ tx_id → s2.txInfo id = s.txInfo id)
    ∧ (sub = none → ∀ id, (s2.txInfo id).map TxInfoVal.submit_id
        = (s.txInfo id).map TxInfoVal.submit_id)
    ∧ (st = none → ∀ id, (s2.txInfo id).map TxInfoVal.status
        = (s.txInfo id).map TxInfoVal.status)
    ∧ (∀ v, s.txInfo tx_id = some v → v.submit_id ≠ "" → sub ≠ some "" →
        ∃ w, s2.txInfo tx_id = some w ∧ w.submit_id ≠ "")
    ∧ (∀ (f2 : Nat) (t : Transaction) (id : String), t.header_signature ≠ id →
        (s.add_tx f2 t).txInfo id = s.txInfo id) := by
  have hframe := update_tx_frame s tx_id sub st s2 h
  cases hv : s.txInfo tx_id with
  | none => rw [update_tx_err s tx_id sub st hv] at h; exact absurd h (by simp)
  | some v =>
    rw [update_tx_ok s tx_id sub st v hv] at h
    simp only [Except.ok.injEq] at h
    subst h
    refine ⟨hframe.2.2.2.2.1, hframe.2.2.2.1, ?_, ?_, ?_, ?_⟩
    · intro hsubn id
      by_cases hid : id = tx_id
      · subst hid
        simp [hv, hsubn]
      · simp [if_neg hid]
    · intro hstn id
      by_cases hid : id = tx_id
      · subst hid
        simp [hv, hstn]
      · simp [if_neg hid]
    · intro w hw hwne hsubne
      have hvw : v = w := by
        exact (Option.some.injEq _ _).mp hw
      subst hvw
      refine ⟨{ order := v.order, submit_id := sub.getD v.submit_id,
                status := (st.map TransactionStatus.toStr).getD v.status },
        by simp, ?_⟩
      cases hs : sub with
      | none => simpa using hwne
      | some x =>
        simp only [Option.getD_some]
        intro hx
        exact hsubne (by rw [hs, hx])
    · intro f2 t id hne
      rw [RedbState.add_tx]
      exact if_neg (fun heq => hne heq.symm)

/-- C8 witness: updating only the submit id of row `a` keeps its order and
status, and leaves the other rows alone. -/
theorem update_tx_field_effects_witness :
    (∀ id, (s8b.txInfo id).map TxInfoVal.order = (s8a.txInfo id).map TxInfoVal.order)
    ∧ (∀ id, id ≠ "a" → s8b.txInfo id = s8a.txInfo id)
    ∧ ((some "S" : Option String) = none → ∀ id, (s8b.txInfo id).map TxInfoVal.submit_id
        = (s8a.txInfo id).map TxInfoVal.submit_id)
    ∧ ((none : Option TransactionStatus) = none → ∀ id,
        (s8b.txInfo id).map TxInfoVal.status = (s8a.txInfo id).map TxInfoVal.status)
    ∧ (∀ v, s8a.txInfo "a" = some v → v.submit_id ≠ "" → (some "S" : Option String) ≠ some "" →
        ∃ w, s8b.txInfo "a" = some w ∧ w.submit_id ≠ "")
    ∧ (∀ (f2 : Nat) (t : Transaction) (id : String), t.header_signature ≠ id →
        (s8a.add_tx f2 t).txInfo id = s8a.txInfo id) :=
  update_tx_field_effects s8a "a" (some "S") none s8b rfl

/-- C8 counterexample: row `a` has submit id `"S"`; an `add_tx` with the
same header signature — a store operation other than `flush_txs` — returns
its submit id to null (and also rewrites its order). -/
theorem update_tx_submit_reset_cex :
    s8b.get_txs 0 = Except.ok [{ order := 0, tx_id := "a", submit_id := some "S",
                                 status := TransactionStatus.Local }]
    ∧ s8c.get_txs 0 = Except.ok [{ order := 1, tx_id := "a", submit_id := none,
                                   status := TransactionStatus.Local }] :=
  ⟨rfl, rfl⟩

end TFS
